import Mathlib

/-!
Verification development for the `fabric-rti-mcp` repository.

This file gives a shallow embedding, in Lean 4, of the parts of the
repository that the checked properties are about:

* `src/fabric_rti_mcp/kusto/kusto_formatter.py` — the result codec
  (`KustoFormatter.to_json/to_csv/to_tsv/to_columnar/to_header_arrays`
  and `KustoFormatter.parse` with its per-format helpers);
* `src/fabric_rti_mcp/authentication/auth_middleware.py` — token
  extraction and the `check_auth` middleware;
* `src/fabric_rti_mcp/kusto/kusto_connection.py` and
  `src/fabric_rti_mcp/kusto/kusto_service.py` — URI sanitization and the
  connection cache (`KustoConnectionManager.get`).

Python values flowing through the codec are modelled by the inductive
type `PyVal`; Python strings are modelled as Lean `String`/`List Char`
and the handful of `str` methods the code uses (`strip`, `split`,
`replace`, `lower`, `startswith`, slicing) are given explicit
executable models whose behaviour matches CPython on the inputs the
code can see (the models are total; each divergence from CPython is
called out in a doc comment).  Stateful code (the connection cache, the
request-token slot) is modelled by explicit state passing; code that
can raise is modelled with `Except`.
-/

namespace FabricRti

/-- Model of a Python runtime value as it flows through
`kusto_formatter.py`: JSON-parseable data plus `None`.  Floats are kept
abstract as their source literal (`float lit`): no claim in this
development compares float values, so no arithmetic on them is needed.
`list` and `dict` model Python lists and (insertion-ordered) dicts. -/
inductive PyVal where
  | str : String → PyVal
  | int : Int → PyVal
  | bool : Bool → PyVal
  | null : PyVal
  | float : String → PyVal
  | list : List PyVal → PyVal
  | dict : List (PyVal × PyVal) → PyVal

/-- Model of Python exceptions that the embedded code can raise. -/
inductive PyErr where
  | valueError : String → PyErr
  | typeError : String → PyErr
  deriving DecidableEq

/-- Python scalar equality for dict keys (`a == b` between hashable
scalars).  Python compares `bool` and `int` numerically (`True == 1`),
which is modelled; `int`/`float` cross-type equality is not modelled
(it never arises in this development) and yields `false`.  Container
values are never equal to scalars in Python; comparisons involving a
container key are handled before this function is called. -/
def pyScalarEq : PyVal → PyVal → Bool
  | .str a, .str b => a = b
  | .int a, .int b => a = b
  | .bool a, .bool b => a = b
  | .bool a, .int b => (if a then (1 : Int) else 0) = b
  | .int a, .bool b => a = (if b then (1 : Int) else 0)
  | .null, .null => true
  | .float a, .float b => a = b
  | _, _ => false

/-- Whether a `PyVal` is hashable, i.e. usable as a Python dict key
(`list` and `dict` keys raise `TypeError` in Python). -/
def pyHashable : PyVal → Bool
  | .list _ => false
  | .dict _ => false
  | _ => true

/-- `d[k] = v` on an insertion-ordered Python dict: replace the value
at the first (unique) matching key, else append.  The key must already
be known hashable. -/
def dictSet (d : List (PyVal × PyVal)) (k v : PyVal) : List (PyVal × PyVal) :=
  match d with
  | [] => [(k, v)]
  | (k', v') :: rest =>
    if pyScalarEq k' k then (k', v) :: rest else (k', v') :: dictSet rest k v

/-- `d.get(k, default)` on a Python dict. -/
def dictGet (d : List (PyVal × PyVal)) (k : PyVal) (default : PyVal) : PyVal :=
  match d with
  | [] => default
  | (k', v') :: rest => if pyScalarEq k' k then v' else dictGet rest k default

/-! ## Models of the Python `str` methods used by the repository -/

/-- The characters Python's `str.strip()` removes (ASCII whitespace;
the repository never feeds non-ASCII whitespace to `strip`). -/
def pyIsSpace (c : Char) : Bool :=
  c = ' ' ∨ c = '\t' ∨ c = '\n' ∨ c = '\r' ∨ c = '\x0b' ∨ c = '\x0c'

/-- Remove leading Python whitespace. -/
def pyLStrip : List Char → List Char
  | [] => []
  | c :: cs => if pyIsSpace c then pyLStrip cs else c :: cs

/-- `str.strip()`: remove leading and trailing Python whitespace. -/
def pyStripList (s : List Char) : List Char :=
  ((pyLStrip ((pyLStrip s).reverse)).reverse)

/-- `str.strip()` on a `String`. -/
def pyStrip (s : String) : String := ⟨pyStripList s.data⟩

/-- `str.lower()` on one character (ASCII case mapping; the claims only
exercise ASCII header values). -/
def pyLowerChar (c : Char) : Char :=
  if 'A' ≤ c ∧ c ≤ 'Z' then Char.ofNat (c.toNat + 32) else c

/-- `str.lower()` (ASCII case mapping, characterwise). -/
def pyLower (s : String) : String := ⟨s.data.map pyLowerChar⟩

/-- `s.replace(old, new)` specialised to a one-character `old`,
replacing every occurrence left to right (this is exactly CPython's
behaviour for a one-character pattern). -/
def replace1 (a : Char) (rep : List Char) : List Char → List Char
  | [] => []
  | c :: cs => if c = a then rep ++ replace1 a rep cs else c :: replace1 a rep cs

/-- `s.replace(old, new)` specialised to a two-character `old`,
replacing non-overlapping occurrences left to right (this is exactly
CPython's behaviour for a two-character pattern; all `replace` calls in
`kusto_formatter.py` use patterns of length one or two). -/
def replace2 (a b : Char) (rep : List Char) : List Char → List Char
  | [] => []
  | [c] => [c]
  | c :: d :: cs =>
    if c = a ∧ d = b then rep ++ replace2 a b rep cs
    else c :: replace2 a b rep (d :: cs)

/-- `s.split(sep)` for a one-character separator, with CPython's
semantics for a nonempty separator: `"".split(sep) == [""]`, empty
pieces are kept. -/
def splitChar (sep : Char) : List Char → List (List Char)
  | [] => [[]]
  | c :: cs =>
    match splitChar sep cs with
    | [] => [[]]
    | h :: t => if c = sep then [] :: h :: t else (c :: h) :: t

/-- `sep.join(pieces)`. -/
def joinSep (sep : List Char) : List (List Char) → List Char
  | [] => []
  | [x] => x
  | x :: xs => x ++ sep ++ joinSep sep xs

/-- `str(v)` on the scalar values the codec can meet in a result row.
Python's `str()` of containers is not modelled (the encoders only meet
container cells through malformed inputs that no claim exercises); a
container renders as its float-style placeholder. -/
def pyStr : PyVal → String
  | .str s => s
  | .int n => toString n
  | .bool b => if b then "True" else "False"
  | .null => "None"
  | .float lit => lit
  | .list _ => "<list>"
  | .dict _ => "<dict>"

/-! ## Model of `json.dumps` / `json.loads`

`kusto_formatter.py` serialises header and row lines with
`json.dumps(x, separators=(",", ":"))` and reads them back with
`json.loads`.  Both are modelled below.  The serialiser follows
CPython's defaults (`ensure_ascii=True`): characters above `0x7e` are
emitted as a single `\uXXXX` escape (astral characters, which CPython
splits into a surrogate pair, do not occur in any claim).  The parser
is a fuel-indexed recursive-descent parser for the `json` grammar
including the CPython extensions `NaN`, `Infinity` and `-Infinity`;
`\uXXXX` escapes are decoded without combining surrogate pairs (again
unreachable in the ASCII scope of the claims). -/

/-- Lowercase hex digit for `\uXXXX` escapes. -/
def hexDigit (n : Nat) : Char :=
  if n < 10 then Char.ofNat (48 + n) else Char.ofNat (87 + n)

/-- The four-digit hex escape `\uXXXX` CPython emits for a code point. -/
def uEscape (n : Nat) : List Char :=
  ['\\', 'u', hexDigit (n / 4096 % 16), hexDigit (n / 256 % 16),
   hexDigit (n / 16 % 16), hexDigit (n % 16)]

/-- How `json.dumps` (with `ensure_ascii=True`) renders one character
inside a string literal. -/
def jEscapeChar (c : Char) : List Char :=
  if c = '"' then ['\\', '"']
  else if c = '\\' then ['\\', '\\']
  else if c = '\n' then ['\\', 'n']
  else if c = '\r' then ['\\', 'r']
  else if c = '\t' then ['\\', 't']
  else if c = '\x08' then ['\\', 'b']
  else if c = '\x0c' then ['\\', 'f']
  else if c.toNat < 0x20 ∨ 0x7e < c.toNat then uEscape c.toNat
  else [c]

/-- A JSON string literal for `s`, as `json.dumps` emits it. -/
def jQuote (s : List Char) : List Char :=
  '"' :: (s.map jEscapeChar).foldr (· ++ ·) [] ++ ['"']

mutual

/-- `json.dumps(v, separators=(",", ":"))`.  Floats are emitted as their
carried literal; dict keys that are not strings are emitted via `pyStr`
(CPython stringifies scalar keys; no claim dumps a dict). -/
def jdumpsVal : PyVal → List Char
  | .str s => jQuote s.data
  | .int n => (toString n).data
  | .bool b => if b then ['t', 'r', 'u', 'e'] else ['f', 'a', 'l', 's', 'e']
  | .null => ['n', 'u', 'l', 'l']
  | .float lit => lit.data
  | .list vs => '[' :: jdumpsItems vs ++ [']']
  | .dict ps => '{' :: jdumpsPairs ps ++ ['}']

/-- Comma-joined array items of `json.dumps`. -/
def jdumpsItems : List PyVal → List Char
  | [] => []
  | [v] => jdumpsVal v
  | v :: vs => jdumpsVal v ++ ',' :: jdumpsItems vs

/-- Comma-joined `key:value` pairs of `json.dumps`. -/
def jdumpsPairs : List (PyVal × PyVal) → List Char
  | [] => []
  | [(k, v)] => jQuote (pyStr k).data ++ ':' :: jdumpsVal v
  | (k, v) :: ps => jQuote (pyStr k).data ++ ':' :: jdumpsVal v ++ ',' :: jdumpsPairs ps

end

/-- The whitespace `json.loads` skips between tokens. -/
def jSkipWs : List Char → List Char
  | [] => []
  | c :: cs => if c = ' ' ∨ c = '\t' ∨ c = '\n' ∨ c = '\r' then jSkipWs cs else c :: cs

/-- Hex digit value for `\uXXXX` escapes (`None` if not a hex digit). -/
def hexVal (c : Char) : Option Nat :=
  if '0' ≤ c ∧ c ≤ '9' then some (c.toNat - 48)
  else if 'a' ≤ c ∧ c ≤ 'f' then some (c.toNat - 87)
  else if 'A' ≤ c ∧ c ≤ 'F' then some (c.toNat - 55)
  else none

/-- Parse the body of a JSON string literal (the opening quote already
consumed), returning the decoded characters and the rest of the input.
Raw control characters are rejected, as in CPython's strict mode. -/
def pjStrBody : List Char → Option (List Char × List Char)
  | [] => none
  | '"' :: cs => some ([], cs)
  | '\\' :: e :: cs =>
    match e with
    | '"' => (pjStrBody cs).map fun (s, r) => ('"' :: s, r)
    | '\\' => (pjStrBody cs).map fun (s, r) => ('\\' :: s, r)
    | '/' => (pjStrBody cs).map fun (s, r) => ('/' :: s, r)
    | 'b' => (pjStrBody cs).map fun (s, r) => ('\x08' :: s, r)
    | 'f' => (pjStrBody cs).map fun (s, r) => ('\x0c' :: s, r)
    | 'n' => (pjStrBody cs).map fun (s, r) => ('\n' :: s, r)
    | 'r' => (pjStrBody cs).map fun (s, r) => ('\r' :: s, r)
    | 't' => (pjStrBody cs).map fun (s, r) => ('\t' :: s, r)
    | 'u' =>
      match cs with
      | h1 :: h2 :: h3 :: h4 :: cs' =>
        match hexVal h1, hexVal h2, hexVal h3, hexVal h4 with
        | some a, some b, some c, some d =>
          (pjStrBody cs').map fun (s, r) =>
            (Char.ofNat (4096 * a + 256 * b + 16 * c + d) :: s, r)
        | _, _, _, _ => none
      | _ => none
    | _ => none
  | c :: cs =>
    if c.toNat < 0x20 then none
    else (pjStrBody cs).map fun (s, r) => (c :: s, r)

/-- Take a maximal run of decimal digits. -/
def takeDigits : List Char → List Char × List Char
  | [] => ([], [])
  | c :: cs =>
    if c.isDigit then
      match takeDigits cs with
      | (ds, r) => (c :: ds, r)
    else ([], c :: cs)

/-- Numeric value of a digit run. -/
def natOfDigits (ds : List Char) : Nat :=
  ds.foldl (fun n c => 10 * n + (c.toNat - 48)) 0

/-- Parse a JSON number (`-?(0|[1-9]\d*)(\.\d+)?([eE][+-]?\d+)?`).
Integers become `PyVal.int`; anything with a fraction or exponent
becomes `PyVal.float` carrying the matched literal. -/
def pjNumber (cs : List Char) : Option (PyVal × List Char) :=
  let (negChars, cs1) : List Char × List Char :=
    match cs with
    | '-' :: r => (['-'], r)
    | _ => ([], cs)
  match takeDigits cs1 with
  | ([], _) => none
  | (ds, rest) =>
    if 1 < ds.length ∧ ds.headD ' ' = '0' then none
    else
      let fr : Option (List Char × List Char) :=
        match rest with
        | '.' :: r2 =>
          match takeDigits r2 with
          | ([], _) => none
          | (fs, r3) => some ('.' :: fs, r3)
        | _ => some ([], rest)
      match fr with
      | none => none
      | some (fchars, rest2) =>
        let ex : Option (List Char × List Char) :=
          match rest2 with
          | e :: r3 =>
            if e = 'e' ∨ e = 'E' then
              let (sgn, r4) : List Char × List Char :=
                match r3 with
                | '+' :: r5 => (['+'], r5)
                | '-' :: r5 => (['-'], r5)
                | _ => ([], r3)
              match takeDigits r4 with
              | ([], _) => none
              | (es, r5) => some (e :: (sgn ++ es), r5)
            else some ([], rest2)
          | [] => some ([], [])
        match ex with
        | none => none
        | some (echars, rest3) =>
          if fchars = [] ∧ echars = [] then
            some (.int (if negChars = [] then (natOfDigits ds : Int)
                        else -(natOfDigits ds : Int)), rest3)
          else some (.float ⟨negChars ++ ds ++ fchars ++ echars⟩, rest3)

mutual

/-- Parse one JSON value at the head of the input (whitespace already
skipped by the caller). -/
def pjVal : Nat → List Char → Option (PyVal × List Char)
  | 0, _ => none
  | fuel + 1, cs =>
    match cs with
    | '{' :: rest =>
      match jSkipWs rest with
      | '}' :: r => some (.dict [], r)
      | r =>
        match pjObjItems fuel r [] with
        | some (ps, r') => some (.dict ps, r')
        | none => none
    | '[' :: rest =>
      match jSkipWs rest with
      | ']' :: r => some (.list [], r)
      | r =>
        match pjArrItems fuel r with
        | some (vs, r') => some (.list vs, r')
        | none => none
    | '"' :: rest =>
      match pjStrBody rest with
      | some (s, r) => some (.str ⟨s⟩, r)
      | none => none
    | 't' :: 'r' :: 'u' :: 'e' :: r => some (.bool true, r)
    | 'f' :: 'a' :: 'l' :: 's' :: 'e' :: r => some (.bool false, r)
    | 'n' :: 'u' :: 'l' :: 'l' :: r => some (.null, r)
    | 'N' :: 'a' :: 'N' :: r => some (.float "nan", r)
    | 'I' :: 'n' :: 'f' :: 'i' :: 'n' :: 'i' :: 't' :: 'y' :: r => some (.float "inf", r)
    | '-' :: 'I' :: 'n' :: 'f' :: 'i' :: 'n' :: 'i' :: 't' :: 'y' :: r => some (.float "-inf", r)
    | _ => pjNumber cs
  termination_by structural fuel => fuel

/-- Parse the comma-separated items of a non-empty JSON array, up to
and including the closing bracket. -/
def pjArrItems : Nat → List Char → Option (List PyVal × List Char)
  | 0, _ => none
  | fuel + 1, cs =>
    match pjVal fuel cs with
    | none => none
    | some (v, r) =>
      match jSkipWs r with
      | ',' :: r2 =>
        match pjArrItems fuel (jSkipWs r2) with
        | some (vs, r3) => some (v :: vs, r3)
        | none => none
      | ']' :: r2 => some ([v], r2)
      | _ => none
  termination_by structural fuel => fuel

/-- Parse the comma-separated members of a non-empty JSON object, up to
and including the closing brace, accumulating into a Python dict. -/
def pjObjItems : Nat → List Char → List (PyVal × PyVal) →
    Option (List (PyVal × PyVal) × List Char)
  | 0, _, _ => none
  | fuel + 1, cs, acc =>
    match cs with
    | '"' :: rest =>
      match pjStrBody rest with
      | none => none
      | some (k, r) =>
        match jSkipWs r with
        | ':' :: r2 =>
          match pjVal fuel (jSkipWs r2) with
          | none => none
          | some (v, r3) =>
            let acc' := dictSet acc (.str ⟨k⟩) v
            match jSkipWs r3 with
            | ',' :: r4 => pjObjItems fuel (jSkipWs r4) acc'
            | '}' :: r4 => some (acc', r4)
            | _ => none
        | _ => none
    | _ => none
  termination_by structural fuel => fuel

end

/-- `json.loads(s)`: parse a complete JSON document, allowing
surrounding whitespace, rejecting trailing data.  `none` models a
raised `json.JSONDecodeError`.  The fuel `2 * |s| + 2` is sufficient
for every input (each two levels of recursion consume at least one
character). -/
def jloads (s : String) : Option PyVal :=
  let cs := jSkipWs s.data
  match pjVal (2 * cs.length + 2) cs with
  | some (v, rest) => if jSkipWs rest = [] then some v else none
  | none => none

/-! ## Model of the Python `csv` module (default dialect, as used by
`KustoFormatter.to_csv` / `_parse_csv`)

The writer uses `QUOTE_MINIMAL` with delimiter `,`, quote `"`,
`doublequote=True` and line terminator `"\r\n"`.  The reader is the
CPython state machine in non-strict mode.  One reader divergence: on a
carriage return not followed by a newline inside an unquoted field
CPython raises (`new-line character seen in unquoted field`); the model
ends the record there instead.  No payload built by the writer, and no
input used in any claim, contains such a character. -/

/-- Whether `QUOTE_MINIMAL` must quote a field: it contains the
delimiter, the quote character, or a character of the line
terminator. -/
def csvNeedsQuote (s : String) : Bool :=
  s.data.any fun c => c = ',' ∨ c = '"' ∨ c = '\r' ∨ c = '\n'

/-- One field as the `csv` writer emits it. -/
def csvWriteField (s : String) : List Char :=
  if csvNeedsQuote s then '"' :: (replace1 '"' ['"', '"'] s.data ++ ['"'])
  else s.data

/-- One record as `csv.writer.writerow` emits it (CPython quotes the
field of a single-empty-field row so the record is not an empty
line). -/
def csvWriteRow (cells : List String) : List Char :=
  match cells with
  | [""] => ['"', '"', '\r', '\n']
  | _ => joinSep [','] (cells.map csvWriteField) ++ ['\r', '\n']

/-- States of the CPython `csv` reader. -/
inductive CsvState where
  | startRecord  -- at the start of a record, nothing pending
  | startField   -- right after a delimiter, a field pending
  | inField      -- inside an unquoted field
  | inQuoted     -- inside a quoted field
  | quoteInQuoted  -- just saw a quote inside a quoted field

/-- The CPython `csv` reader state machine (non-strict): `fld` is the
field in progress, `rec` the fields of the record in progress.  A blank
line yields an empty record; after a closing quote further characters
are taken literally; an unterminated quoted field is flushed at end of
input. -/
def csvGo (st : CsvState) (fld : List Char) (rec : List String) :
    List Char → List (List String)
  | [] =>
    match st with
    | .startRecord => []
    | _ => [rec ++ [⟨fld⟩]]
  | '\r' :: '\n' :: cs =>
    match st with
    | .startRecord => [] :: csvGo .startRecord [] [] cs
    | .inQuoted => csvGo .inQuoted (fld ++ ['\r']) rec ('\n' :: cs)
    | _ => (rec ++ [⟨fld⟩]) :: csvGo .startRecord [] [] cs
  | '\r' :: cs =>
    match st with
    | .startRecord => [] :: csvGo .startRecord [] [] cs
    | .inQuoted => csvGo .inQuoted (fld ++ ['\r']) rec cs
    | _ => (rec ++ [⟨fld⟩]) :: csvGo .startRecord [] [] cs
  | '\n' :: cs =>
    match st with
    | .startRecord => [] :: csvGo .startRecord [] [] cs
    | .inQuoted => csvGo .inQuoted (fld ++ ['\n']) rec cs
    | _ => (rec ++ [⟨fld⟩]) :: csvGo .startRecord [] [] cs
  | '"' :: cs =>
    match st with
    | .startRecord => csvGo .inQuoted [] rec cs
    | .startField => csvGo .inQuoted [] rec cs
    | .inField => csvGo .inField (fld ++ ['"']) rec cs
    | .inQuoted => csvGo .quoteInQuoted fld rec cs
    | .quoteInQuoted => csvGo .inQuoted (fld ++ ['"']) rec cs
  | ',' :: cs =>
    match st with
    | .inQuoted => csvGo .inQuoted (fld ++ [',']) rec cs
    | _ => csvGo .startField [] (rec ++ [⟨fld⟩]) cs
  | c :: cs =>
    match st with
    | .inQuoted => csvGo .inQuoted (fld ++ [c]) rec cs
    | .quoteInQuoted => csvGo .inField (fld ++ [c]) rec cs
    | _ => csvGo .inField (fld ++ [c]) rec cs

/-- `list(csv.reader(io.StringIO(data)))`. -/
def csvReader (data : List Char) : List (List String) :=
  csvGo .startRecord [] [] data

/-! ## `KustoFormatter` (`src/fabric_rti_mcp/kusto/kusto_formatter.py`)

`KustoResponseDataSet` keeps only what the formatter reads from the
Azure SDK object: `primary_results`, each with the column names (in
schema order) and the row values.  An encoder's `row[i]` is modelled
with `List.getD i PyVal.null`; CPython raises `IndexError` if a row is
shorter than the column list, which no claim exercises (every claim
constrains rows to the full column count). -/

/-- A primary result table: column names in schema order plus rows. -/
structure KustoResultTable where
  columns : List String
  rows : List (List PyVal)

/-- The response object handed to the encoders: `primary_results`. -/
structure KustoResponseDataSet where
  primary_results : List KustoResultTable

/-- The wire payload `{"format": ..., "data": ...}`. -/
structure KustoResponseFormat where
  format : String
  data : PyVal

/-- `dict(pairs)` built by repeated insertion (keys of the uses below
are always hashable strings). -/
def dictFromPairs (ps : List (PyVal × PyVal)) : List (PyVal × PyVal) :=
  ps.foldl (fun d kv => dictSet d kv.1 kv.2) []

/-- `columnar_data[col_name].append(v)`: append to the list stored at
an existing key.  A missing key (Python `KeyError`) or a non-list value
(Python `AttributeError`) cannot occur — `to_columnar` initialises
every column to a list first — and leaves the dict unchanged here. -/
def dictAppendAt (d : List (PyVal × PyVal)) (k v : PyVal) : List (PyVal × PyVal) :=
  match d with
  | [] => []
  | (k', v') :: rest =>
    if pyScalarEq k' k then
      (k', match v' with
           | .list vs => .list (vs ++ [v])
           | other => other) :: rest
    else (k', v') :: dictAppendAt rest k v

/-- The body of the `for i, col in enumerate(first_result.columns)`
loop that populates one row into the columnar dict, with the running
index explicit. -/
def columnarAppendRow (row : List PyVal) (d : List (PyVal × PyVal)) (i : Nat) :
    List String → List (PyVal × PyVal)
  | [] => d
  | c :: cols => columnarAppendRow row (dictAppendAt d (.str c) (row.getD i .null)) (i + 1) cols

namespace KustoFormatter

/-- `KustoFormatter.to_json`. -/
def to_json (result_set : Option KustoResponseDataSet) : KustoResponseFormat :=
  match result_set with
  | none => ⟨"json", .list []⟩
  | some ds =>
    match ds.primary_results with
    | [] => ⟨"json", .list []⟩
    | t :: _ =>
      ⟨"json", .list (t.rows.map fun row =>
        .dict (dictFromPairs ((t.columns.map PyVal.str).zip row)))⟩

/-- The cell preprocessing of `to_csv`: `"" if v is None else v`,
then `csv.writer` stringifies the cell. -/
def csvCell (v : PyVal) : String :=
  match v with
  | .null => ""
  | v => pyStr v

/-- `KustoFormatter.to_csv`. -/
def to_csv (result_set : Option KustoResponseDataSet) : KustoResponseFormat :=
  match result_set with
  | none => ⟨"csv", .str ""⟩
  | some ds =>
    match ds.primary_results with
    | [] => ⟨"csv", .str ""⟩
    | t :: _ =>
      let header := csvWriteRow t.columns
      let dataRows := t.rows.map fun row => csvWriteRow (row.map csvCell)
      ⟨"csv", .str ⟨header ++ joinSep [] dataRows⟩⟩

/-- The escaping `to_tsv` applies to one non-null cell: backslash
first, then tab, newline, carriage return. -/
def tsvEscape (s : List Char) : List Char :=
  replace1 '\r' ['\\', 'r']
    (replace1 '\n' ['\\', 'n']
      (replace1 '\t' ['\\', 't']
        (replace1 '\\' ['\\', '\\'] s)))

/-- One `to_tsv` cell: `""` for `None`, else `str(value)` escaped. -/
def tsvCell (v : PyVal) : List Char :=
  match v with
  | .null => []
  | v => tsvEscape (pyStr v).data

/-- `KustoFormatter.to_tsv`: tab-joined cells, newline-joined lines,
header row unescaped. -/
def to_tsv (result_set : Option KustoResponseDataSet) : KustoResponseFormat :=
  match result_set with
  | none => ⟨"tsv", .str ""⟩
  | some ds =>
    match ds.primary_results with
    | [] => ⟨"tsv", .str ""⟩
    | t :: _ =>
      let header := joinSep ['\t'] (t.columns.map String.data)
      let dataLines := t.rows.map fun row => joinSep ['\t'] (row.map tsvCell)
      ⟨"tsv", .str ⟨joinSep ['\n'] (header :: dataLines)⟩⟩

/-- `KustoFormatter.to_columnar`: initialise one empty list per column,
then append `row[i]` column-wise, row by row. -/
def to_columnar (result_set : Option KustoResponseDataSet) : KustoResponseFormat :=
  match result_set with
  | none => ⟨"columnar", .dict []⟩
  | some ds =>
    match ds.primary_results with
    | [] => ⟨"columnar", .dict []⟩
    | t :: _ =>
      let init := t.columns.foldl (fun d c => dictSet d (.str c) (.list [])) []
      let filled := t.rows.foldl
        (fun d row => columnarAppendRow row d 0 t.columns) init
      ⟨"columnar", .dict filled⟩

/-- `KustoFormatter.to_header_arrays`: first line the JSON array of
column names, then one compact JSON array per row. -/
def to_header_arrays (result_set : Option KustoResponseDataSet) : KustoResponseFormat :=
  match result_set with
  | none => ⟨"header_arrays", .list []⟩
  | some ds =>
    match ds.primary_results with
    | [] => ⟨"header_arrays", .list []⟩
    | t :: _ =>
      let lines := jdumpsVal (.list (t.columns.map PyVal.str)) ::
        t.rows.map fun row => jdumpsVal (.list row)
      ⟨"header_arrays", .str ⟨joinSep ['\n'] lines⟩⟩

/-- `KustoFormatter._parse_json`: `data` must be a list or dict and is
returned unchanged. -/
def _parse_json (data : PyVal) : Except PyErr PyVal :=
  match data with
  | .list _ => .ok data
  | .dict _ => .ok data
  | _ => .error (.valueError "Invalid JSON format")

/-- The body of the `for i, header in enumerate(headers)` loop of
`_parse_csv`, with the running index explicit. -/
def csvRowDictLoop (padded : List String) (d : List (PyVal × PyVal)) (i : Nat) :
    List String → List (PyVal × PyVal)
  | [] => d
  | h :: hs =>
    let value := padded.getD i ""
    csvRowDictLoop padded
      (dictSet d (.str h) (if value = "" then .null else .str value)) (i + 1) hs

/-- The row-dict loop of `_parse_csv`: pad, then
`None if value == "" else value` keyed by header. -/
def csvRowDict (headers padded : List String) : List (PyVal × PyVal) :=
  csvRowDictLoop padded [] 0 headers

/-- `KustoFormatter._parse_csv`.  The `len(lines) < 1` short-circuit of
the source is dead (`split` never returns an empty list) but kept. -/
def _parse_csv (data : PyVal) : Except PyErr PyVal :=
  match data with
  | .str s =>
    if s = "" then .ok (.list [])
    else
      let lines := splitChar '\n' (pyStripList s.data)
      if lines.length < 1 then .error (.valueError "Invalid CSV format")
      else
        match csvReader s.data with
        | [] => .ok (.list [])
        | headers :: dataRows =>
          .ok (.list (dataRows.map fun row =>
            let padded := row ++ List.replicate (headers.length - row.length) ""
            .dict (csvRowDict headers padded)))
  | .null => .ok .null  -- `if data is None: return None` (dead: `parse` intercepts null data)
  | _ => .error (.valueError "Invalid CSV format")

/-- The unescaping of `_parse_tsv`: tab, newline, carriage return,
backslash last. -/
def tsvUnescape (v : List Char) : List Char :=
  replace2 '\\' '\\' ['\\']
    (replace2 '\\' 'r' ['\r']
      (replace2 '\\' 'n' ['\n']
        (replace2 '\\' 't' ['\t'] v)))

/-- The body of the `for i, header in enumerate(headers)` loop of
`_parse_tsv`, with the running index explicit. -/
def tsvRowDictLoop (values : List String) (d : List (PyVal × PyVal)) (i : Nat) :
    List String → List (PyVal × PyVal)
  | [] => d
  | h :: hs =>
    let value := values.getD i ""
    let value := if value = "" then value else (⟨tsvUnescape value.data⟩ : String)
    tsvRowDictLoop values
      (dictSet d (.str h) (if value = "" then .null else .str value)) (i + 1) hs

/-- The row-dict loop of `_parse_tsv`: missing cells read as `""`,
non-empty cells unescaped, `""` mapped back to `None`. -/
def tsvRowDict (headers values : List String) : List (PyVal × PyVal) :=
  tsvRowDictLoop values [] 0 headers

/-- `KustoFormatter._parse_tsv`. -/
def _parse_tsv (data : PyVal) : Except PyErr PyVal :=
  match data with
  | .str s =>
    if s = "" then .ok (.list [])
    else
      let lines := (splitChar '\n' (pyStripList s.data)).map fun l => (⟨l⟩ : String)
      match lines with
      | [] => .error (.valueError "Invalid TSV format")  -- dead: `split` never returns []
      | h :: dataLines =>
        let headers := (splitChar '\t' h.data).map fun l => (⟨l⟩ : String)
        .ok (.list (dataLines.map fun line =>
          let values := (splitChar '\t' line.data).map fun l => (⟨l⟩ : String)
          .dict (tsvRowDict headers values)))
  | _ => .error (.valueError "Invalid TSV format")

/-- `len(col_values)` inside `_parse_columnar`; Python's `len` raises
`TypeError` on scalars. -/
def pySeqLen : PyVal → Except PyErr Nat
  | .list vs => .ok vs.length
  | .str s => .ok s.length
  | .dict ps => .ok ps.length
  | _ => .error (.typeError "object has no len()")

/-- `col_values[row_idx]` for an index already checked in range.
Indexing a string yields a one-character string as in Python; indexing
a dict by position (Python would look the integer up as a key) is
unreachable in every claim and yields null. -/
def pySeqIndex : PyVal → Nat → PyVal
  | .list vs, i => vs.getD i .null
  | .str s, i => .str ⟨[s.data.getD i ' ']⟩
  | _, _ => .null

/-- One cell of a reconstructed columnar row:
`col_values[row_idx] if row_idx < len(col_values) else None`. -/
def columnarRowVal (entries : List (PyVal × PyVal)) (col : PyVal) (row_idx : Nat) :
    Except PyErr PyVal := do
  let col_values := dictGet entries col (.list [])
  let n ← pySeqLen col_values
  .ok (if row_idx < n then pySeqIndex col_values row_idx else .null)

/-- One reconstructed columnar row, keyed by the dict's columns. -/
def columnarRow (entries : List (PyVal × PyVal)) (columns : List PyVal)
    (row_idx : Nat) : Except PyErr (List (PyVal × PyVal)) :=
  columns.foldlM
    (fun d c => do
      let v ← columnarRowVal entries c row_idx
      .ok (dictSet d c v))
    []

/-- `KustoFormatter._parse_columnar`: row count from the first column,
rows rebuilt index-wise, `None` where a column is short. -/
def _parse_columnar (data : PyVal) : Except PyErr PyVal :=
  match data with
  | .dict entries =>
    let columns := entries.map (·.1)
    match columns with
    | [] => .ok (.list [])
    | c0 :: _ => do
      let row_count ← pySeqLen (dictGet entries c0 (.list []))
      let rows ← (List.range row_count).mapM fun row_idx => do
        let d ← columnarRow entries columns row_idx
        (pure (PyVal.dict d) : Except PyErr PyVal)
      .ok (.list rows)
  | _ => .error (.valueError "Invalid columnar format")

/-- The body of the `for i, header in enumerate(headers)` loop of
`_parse_header_arrays`, with the running index explicit. -/
def buildHaRowLoop (row_values : List PyVal) (d : List (PyVal × PyVal)) (i : Nat) :
    List PyVal → Except PyErr (List (PyVal × PyVal))
  | [] => .ok d
  | h :: hs =>
    if pyHashable h then
      buildHaRowLoop row_values (dictSet d h (row_values.getD i .null)) (i + 1) hs
    else .error (.typeError "unhashable type")

/-- The row-dict loop of `_parse_header_arrays`:
`row_values[i] if i < len(row_values) else None`, keyed by the decoded
headers; an unhashable header raises `TypeError` (not caught by the
source's `except json.JSONDecodeError`). -/
def buildHaRow (headers row_values : List PyVal) :
    Except PyErr (List (PyVal × PyVal)) :=
  buildHaRowLoop row_values [] 0 headers

/-- The line loop of `_parse_header_arrays`.  A line that fails
`json.loads` raises `JSONDecodeError`, which the source catches around
the whole loop, discarding `acc` and returning `[]`; a line whose JSON
value is not a list is skipped (`continue`). -/
def haLines (headers : List PyVal) (acc : List PyVal) :
    List String → Except PyErr PyVal
  | [] => .ok (.list acc.reverse)
  | line :: rest =>
    match jloads line with
    | none => .ok (.list [])
    | some (.list row_values) => do
      let row ← buildHaRow headers row_values
      haLines headers (.dict row :: acc) rest
    | some _ => haLines headers acc rest

/-- `KustoFormatter._parse_header_arrays`. -/
def _parse_header_arrays (data : PyVal) : Except PyErr PyVal :=
  match data with
  | .str s =>
    let lines := (splitChar '\n' (pyStripList s.data)).map fun l => (⟨l⟩ : String)
    match lines with
    | [] => .ok (.list [])  -- `if len(lines) < 1: return []` (dead: `split` never returns [])
    | first :: rest =>
      match jloads first with
      | none => .ok (.list [])           -- header JSONDecodeError → `return []`
      | some (.list headers) => haLines headers [] rest
      | some _ => .ok (.list [])         -- header not a list → `return []`
  | _ => .error (.valueError "Invalid header_arrays format")

/-- `KustoFormatter.parse`: `None` in → `None` out, `None` data →
`None` before any format dispatch, then dispatch on the format tag. -/
def parse (response : Option KustoResponseFormat) : Except PyErr PyVal :=
  match response with
  | none => .ok .null
  | some r =>
    match r.data with
    | .null => .ok .null
    | data =>
      if r.format = "json" then _parse_json data
      else if r.format = "csv" then _parse_csv data
      else if r.format = "tsv" then _parse_tsv data
      else if r.format = "columnar" then _parse_columnar data
      else if r.format = "header_arrays" then _parse_header_arrays data
      else .error (.valueError ("Unsupported format: " ++ r.format))

end KustoFormatter

/-! ## Auth middleware
(`src/fabric_rti_mcp/authentication/auth_middleware.py`)

`check_auth` is modelled as a pure function of the request, the global
configuration, the OBO exchanger and the downstream handler.  The
exchanger parameter stands for
`TokenOboExchanger().perform_obo_token_exchange(user_token, resource_uri)`
— constructor and call together, since the source wraps both in one
`try`; `.error` models any raised exception.  The outcome records the
response, every `set_auth_token` write performed (the Credential
Context of `kusto_connection.py`), and whether `call_next` ran.
`decode_jwt_token` is logging-only in the source and does not influence
the outcome, so it is not part of the model. -/

/-- An inbound HTTP request as seen by the middleware. -/
structure HttpRequest where
  method : String
  path : String
  headers : List (String × String)

/-- A `starlette.responses.JSONResponse` with a flat JSON object body. -/
structure JSONResponse where
  body : List (String × String)
  status_code : Nat
  deriving DecidableEq

/-- The global flag read by the middleware (`common.global_config`). -/
structure GlobalFabricRTIConfig where
  use_obo_flow : Bool

/-- The OBO configuration read by the middleware (`obo_config`). -/
structure FabricRtiMcpOBOFlowAuthConfig where
  kusto_audience : String

/-- Starlette's case-insensitive header lookup with `""` default
(`request.headers.get(name, "")`... the source also writes
`or request.headers.get("authorization", "")`, which is the same
lookup). -/
def headersGet (headers : List (String × String)) (name : String) : String :=
  match headers.find? (fun kv => pyLower kv.1 = pyLower name) with
  | some kv => kv.2
  | none => ""

/-- `s.startswith(pre)`. -/
def pyStartsWith (s pre : String) : Bool :=
  pre.data.isPrefixOf s.data

/-- `extract_token_from_header`: strip `"Bearer "` case-insensitively
when present (`auth_header.lower().startswith("bearer ")` then
`auth_header[7:]`), else return the header verbatim. -/
def extract_token_from_header (auth_header : String) : String :=
  if pyStartsWith (pyLower auth_header) "bearer " then ⟨auth_header.data.drop 7⟩
  else auth_header

/-- What one pass of `check_auth` did: the response produced, the
`set_auth_token` writes performed (in order), and whether `call_next`
was invoked. -/
structure CheckAuthOutcome where
  response : JSONResponse
  token_writes : List String
  downstream_called : Bool
  deriving DecidableEq

/-- The `check_auth` middleware of `add_auth_middleware`.  The final
`except` of the source (converting an uncaught fault into a 500
response) can only fire through `call_next` here, which the model
treats as total. -/
def check_auth (config : GlobalFabricRTIConfig)
    (obo_config : FabricRtiMcpOBOFlowAuthConfig)
    (perform_obo_token_exchange : String → String → Except String String)
    (call_next : HttpRequest → JSONResponse)
    (request : HttpRequest) : CheckAuthOutcome :=
  if request.path = "/health" then ⟨call_next request, [], true⟩
  else if request.method = "OPTIONS" then ⟨call_next request, [], true⟩
  else
    let auth_header :=
      let a := headersGet request.headers "Authorization"
      if a ≠ "" then a else headersGet request.headers "authorization"
    if auth_header = "" then
      ⟨⟨[("error", "unauthorized"), ("message", "Authorization header required")], 401⟩,
       [], false⟩
    else
      let token := extract_token_from_header auth_header
      let exchanged : Except String String :=
        if config.use_obo_flow then
          perform_obo_token_exchange token obo_config.kusto_audience
        else .ok token
      match exchanged with
      | .error _ =>
        ⟨⟨[("error", "unauthorized"),
           ("message", "Unauthorized to get the required token to access the resource")],
          401⟩, [], false⟩
      | .ok token =>
        ⟨call_next request, [token], true⟩

/-! ## Connection registry
(`src/fabric_rti_mcp/kusto/kusto_connection.py`,
`src/fabric_rti_mcp/kusto/kusto_service.py`)

`KustoConnectionManager.get` is modelled with explicit state passing:
the state is the `_cache` dict plus a counter that stamps each
`KustoConnection` with a distinct `conn_id`, the model of Python object
identity — two results are the identical object exactly when their
`conn_id`s agree.  A raised exception is an `.error` result paired with
the unchanged state.  The configuration values that the source reads
from module scope (`KustoConfig.get_known_services()`,
`CONFIG.allow_unknown_services`, `_DEFAULT_DB_NAME`) are passed as a
record, constant for the process lifetime. -/

/-- First-match lookup in a string-keyed dict. -/
def lookupStr {α : Type} (m : List (String × α)) (k : String) : Option α :=
  match m with
  | [] => none
  | (k', v) :: rest => if k' = k then some v else lookupStr rest k

/-- Dict insertion: overwrite in place or append. -/
def insertStr {α : Type} (m : List (String × α)) (k : String) (v : α) :
    List (String × α) :=
  match m with
  | [] => [(k, v)]
  | (k', v') :: rest =>
    if k' = k then (k', v) :: rest else (k', v') :: insertStr rest k v

/-- `sanitize_uri`: strip surrounding whitespace, then one trailing
slash. -/
def sanitize_uri (cluster_uri : String) : String :=
  let s := pyStrip cluster_uri
  if s.data.getLast? = some '/' then ⟨s.data.dropLast⟩ else s

/-- `KustoConnectionStringBuilder.DEFAULT_DATABASE_NAME` from the Azure
SDK (an external constant the source reads). -/
def DEFAULT_DATABASE_NAME : String := "NetDefaultDB"

/-- One entry of `KustoConfig.get_known_services()`. -/
structure KustoServiceConfig where
  service_uri : String
  default_database : Option String
  description : Option String
  deriving DecidableEq

/-- The module-level configuration `KustoConnectionManager.get`
consults. -/
structure KustoConfigModel where
  known_services : List (String × KustoServiceConfig)
  allow_unknown_services : Bool
  default_db_name : String

/-- A `KustoConnection`: the sanitized URI, the resolved default
database, and its identity stamp (clients are opaque to every claim). -/
structure KustoConnection where
  cluster_uri : String
  default_database : String
  conn_id : Nat
  deriving DecidableEq

/-- `KustoConnection.__init__`: sanitize the URI again, fall back to
`DEFAULT_DATABASE_NAME` for a falsy database, and strip it. -/
def KustoConnection.create (cluster_uri : String) (default_database : Option String)
    (conn_id : Nat) : KustoConnection :=
  let cluster_uri := sanitize_uri cluster_uri
  let db :=
    match default_database with
    | none => DEFAULT_DATABASE_NAME
    | some d => if d = "" then DEFAULT_DATABASE_NAME else d
  ⟨cluster_uri, pyStrip db, conn_id⟩

/-- The `KustoConnectionManager` state: the `_cache` dict plus the
identity counter. -/
structure KustoConnectionManager where
  cache : List (String × KustoConnection)
  next_id : Nat
  deriving DecidableEq

/-- Construct a new connection and insert it into the cache (the tail
of `KustoConnectionManager.get` after the policy checks). -/
def KustoConnectionManager.createAndCache (m : KustoConnectionManager)
    (sanitized_uri default_database : String) :
    KustoConnectionManager × Except PyErr KustoConnection :=
  let connection := KustoConnection.create sanitized_uri (some default_database) m.next_id
  (⟨insertStr m.cache sanitized_uri connection, m.next_id + 1⟩, .ok connection)

/-- `KustoConnectionManager.get`: sanitize, cache lookup, allowlist /
policy check, construct and cache. -/
def KustoConnectionManager.get (cfg : KustoConfigModel) (m : KustoConnectionManager)
    (cluster_uri : String) : KustoConnectionManager × Except PyErr KustoConnection :=
  let sanitized_uri := sanitize_uri cluster_uri
  match lookupStr m.cache sanitized_uri with
  | some connection => (m, .ok connection)
  | none =>
    match lookupStr cfg.known_services sanitized_uri with
    | some svc =>
      let default_database :=
        match svc.default_database with
        | some d => if d = "" then cfg.default_db_name else d
        | none => cfg.default_db_name
      m.createAndCache sanitized_uri default_database
    | none =>
      if ¬ cfg.allow_unknown_services then
        (m, .error (.valueError ("Service URI '" ++ sanitized_uri ++
          "' is not in the list of approved services, and unknown connections are not permitted by the administrator.")))
      else m.createAndCache sanitized_uri cfg.default_db_name

/-! ## Spec-side definitions used to state the claims -/

/-- A URI base is `good` when it is nonempty, does not start or end
with Python whitespace, and does not end with a slash. -/
def goodBaseUri (base : String) : Bool :=
  !base.data.isEmpty && !pyIsSpace (base.data.headD ' ') &&
    !pyIsSpace (base.data.getLastD ' ') && !(base.data.getLastD ' ' == '/')

/-- `u` differs from `base` only by surrounding whitespace or one
trailing slash (placed before any trailing whitespace). -/
def uriVariant (u base : String) : Prop :=
  ∃ w1 w2 : String, (∀ c ∈ w1.data, pyIsSpace c = true) ∧
    (∀ c ∈ w2.data, pyIsSpace c = true) ∧
    (u = w1 ++ base ++ w2 ∨ u = w1 ++ (base ++ "/") ++ w2)

/-- The two-character escape `to_tsv` produces for one character of a
backslash-free value (`[c]` when `c` needs no escape). -/
def tsvEchunk (c : Char) : List Char :=
  if c = '\t' then ['\\', 't']
  else if c = '\n' then ['\\', 'n']
  else if c = '\r' then ['\\', 'r']
  else [c]

/-- A column name that survives the TSV header line unchanged:
nonempty, no tab or newline, and no surrounding Python whitespace. -/
def tsvGoodName (s : String) : Bool :=
  !s.data.isEmpty && s.data.all (fun c => !(c == '\t') && !(c == '\n')) &&
    !pyIsSpace (s.data.headD 'x') && !pyIsSpace (s.data.getLastD 'x')

/-- A value whose TSV escape round-trips exactly: nonempty, free of
backslashes, and not ending in an unescaped strippable character. -/
def tsvGoodVal (s : String) : Bool :=
  !s.data.isEmpty && s.data.all (fun c => !(c == '\\')) &&
    !(s.data.getLastD 'x' == ' ') && !(s.data.getLastD 'x' == '\x0b') &&
    !(s.data.getLastD 'x' == '\x0c')

/-- The pure shadow of `KustoFormatter.buildHaRow` for hashable
headers. -/
def haRowPureLoop (row_values : List PyVal) (d : List (PyVal × PyVal)) (i : Nat) :
    List PyVal → List (PyVal × PyVal)
  | [] => d
  | h :: hs =>
    haRowPureLoop row_values (dictSet d h (row_values.getD i PyVal.null)) (i + 1) hs

/-- The row dict `_parse_header_arrays` builds for one well-formed line
when every header is hashable (the pure shadow of `buildHaRow`). -/
def haRowPure (headers row_values : List PyVal) : List (PyVal × PyVal) :=
  haRowPureLoop row_values [] 0 headers

/-- A character `json.dumps` emits verbatim inside a string literal:
printable ASCII that is neither the quote nor the backslash. -/
def jsonPlainChar (c : Char) : Bool :=
  decide (0x20 ≤ c.toNat) && decide (c.toNat ≤ 0x7e) && !(c == '"') && !(c == '\\')

/-- A string whose `json.dumps` rendering is just the quoted raw
characters, so `json.loads` inverts it exactly. -/
def jsonSafe (s : String) : Bool :=
  s.data.all jsonPlainChar

/-- The columnar dict `to_columnar` has built once the rows in `rows`
have been folded in: one entry per column name (from index `i` on),
holding that column's cell from every processed row. -/
def colEntriesFrom (rows : List (List PyVal)) (i : Nat) :
    List String → List (String × List PyVal)
  | [] => []
  | c :: cs => (c, rows.map fun r => r.getD i PyVal.null) :: colEntriesFrom rows (i + 1) cs

/-! ## Basic lemmas about the string models -/

theorem isPrefixOf_iff_exists {p s : List Char} :
    p.isPrefixOf s = true ↔ ∃ t, s = p ++ t := by
  induction p generalizing s with
  | nil => simp [List.isPrefixOf]
  | cons a as ih =>
    cases s with
    | nil => simp [List.isPrefixOf]
    | cons b bs =>
      simp only [List.isPrefixOf, Bool.and_eq_true, beq_iff_eq, ih, List.cons_append,
        List.cons.injEq]
      constructor
      · rintro ⟨rfl, t, rfl⟩; exact ⟨t, rfl, rfl⟩
      · rintro ⟨t, rfl, rfl⟩; exact ⟨rfl, t, rfl⟩

theorem string_data_append (a b : String) : (a ++ b).data = a.data ++ b.data := rfl

theorem string_eta (s : String) : (⟨s.data⟩ : String) = s := rfl

theorem string_ext {a b : String} (h : a.data = b.data) : a = b := by
  cases a; cases b; exact congrArg String.mk h

theorem pyLower_append (a b : String) : pyLower (a ++ b) = pyLower a ++ pyLower b := by
  show String.mk (((a ++ b).data).map pyLowerChar) =
    String.mk ((a.data.map pyLowerChar) ++ (b.data.map pyLowerChar))
  rw [string_data_append, List.map_append]

theorem pyLower_data (s : String) : (pyLower s).data = s.data.map pyLowerChar := rfl

/-! ## C10 -/

/-- C10: for every format tag, including unsupported ones, a payload
whose `data` is `None` makes `KustoFormatter.parse` return `None`
without raising: the null-data check precedes the format dispatch. -/
theorem C10_parse_null_data (fmt : String) :
    KustoFormatter.parse (some ⟨fmt, PyVal.null⟩) = .ok PyVal.null := rfl

/-! ## C9 -/

/-- C9: encoding an empty result to `header_arrays` yields `data = []`
(a list), and `KustoFormatter.parse` of that payload raises
`ValueError` (the decoder only accepts string data) instead of
returning the empty row sequence: the empty result does not round-trip
through `header_arrays`. -/
theorem C9_header_arrays_empty_raises (rs : Option KustoResponseDataSet)
    (h : rs = none ∨ ∃ ds, rs = some ds ∧ ds.primary_results = []) :
    KustoFormatter.to_header_arrays rs = ⟨"header_arrays", PyVal.list []⟩ ∧
      KustoFormatter.parse (some (KustoFormatter.to_header_arrays rs)) =
        .error (.valueError "Invalid header_arrays format") := by
  rcases h with rfl | ⟨ds, rfl, h2⟩
  · exact ⟨rfl, rfl⟩
  · obtain ⟨prs⟩ := ds
    simp only at h2
    subst h2
    exact ⟨rfl, rfl⟩

/-- Witness for C9 at the concrete empty response `None`. -/
theorem C9_header_arrays_empty_raises_witness :
    KustoFormatter.to_header_arrays none = ⟨"header_arrays", PyVal.list []⟩ ∧
      KustoFormatter.parse (some (KustoFormatter.to_header_arrays none)) =
        .error (.valueError "Invalid header_arrays format") :=
  C9_header_arrays_empty_raises none (Or.inl rfl)

/-! ## C8 -/

/-- C8: token extraction strips a leading `"Bearer "` prefix
case-insensitively if and only if it is present (any letter case of
the prefix), and otherwise returns the header value verbatim; in
particular any casing of `"bearer "` followed by `"ABC.DEF.GHI"`
extracts exactly `"ABC.DEF.GHI"`. -/
theorem C8_extract_token_from_header_spec (h : String) :
    (∀ p rest : String, pyLower p = "bearer " → h = p ++ rest →
      extract_token_from_header h = rest) ∧
    ((¬ ∃ p rest : String, pyLower p = "bearer " ∧ h = p ++ rest) →
      extract_token_from_header h = h) ∧
    (∀ p : String, pyLower p = "bearer " → h = p ++ "ABC.DEF.GHI" →
      extract_token_from_header h = "ABC.DEF.GHI") := by
  have lenp : ∀ p : String, pyLower p = "bearer " → p.data.length = 7 := by
    intro p hp
    have : (pyLower p).data.length = ("bearer " : String).data.length := by rw [hp]
    simpa [pyLower_data] using this
  have main : ∀ p rest : String, pyLower p = "bearer " → h = p ++ rest →
      extract_token_from_header h = rest := by
    rintro p rest hp rfl
    have hpre : pyStartsWith (pyLower (p ++ rest)) "bearer " = true := by
      rw [pyLower_append, hp]
      exact isPrefixOf_iff_exists.2 ⟨(pyLower rest).data, rfl⟩
    rw [extract_token_from_header, if_pos hpre]
    have hdrop : (p ++ rest).data.drop 7 = rest.data := by
      rw [string_data_append, ← lenp p hp, List.drop_left]
    rw [hdrop, string_eta]
  refine ⟨main, ?_, fun p hp hh => main p "ABC.DEF.GHI" hp hh⟩
  intro hno
  rw [extract_token_from_header, if_neg ?_]
  intro hpre
  obtain ⟨t, ht⟩ := isPrefixOf_iff_exists.1 hpre
  refine hno ⟨⟨h.data.take 7⟩, ⟨h.data.drop 7⟩, ?_, ?_⟩
  · have hmap : h.data.map pyLowerChar = ("bearer " : String).data ++ t := by
      have := ht
      rw [pyLower_data] at this
      exact this
    apply string_ext
    show (h.data.take 7).map pyLowerChar = ("bearer " : String).data
    rw [List.map_take, hmap]
    exact List.take_left' rfl
  · show h = (⟨h.data.take 7 ++ h.data.drop 7⟩ : String)
    rw [List.take_append_drop]

/-- Witness for C8: prefix stripped at `"BeArEr ABC.DEF.GHI"`, header
returned verbatim at `"Token xyz"`. -/
theorem C8_extract_token_from_header_spec_witness :
    extract_token_from_header "BeArEr ABC.DEF.GHI" = "ABC.DEF.GHI" :=
  (C8_extract_token_from_header_spec "BeArEr ABC.DEF.GHI").1 "BeArEr " "ABC.DEF.GHI"
    (by decide) rfl

end FabricRti

namespace FabricRti

/-! ## C3 -/

/-- C3: for a non-OPTIONS, non-health request carrying an
`Authorization` header, when the OBO flag is enabled and the token
exchange raises, `check_auth` responds 401 with body error
`"unauthorized"`, never writes the Credential Context slot, and never
invokes `call_next`. -/
theorem C3_obo_failure_rejects_before_downstream
    (config : GlobalFabricRTIConfig) (obo_config : FabricRtiMcpOBOFlowAuthConfig)
    (exch : String → String → Except String String)
    (call_next : HttpRequest → JSONResponse) (request : HttpRequest) (err : String)
    (hpath : request.path ≠ "/health") (hmethod : request.method ≠ "OPTIONS")
    (hheader : headersGet request.headers "Authorization" ≠ "")
    (hobo : config.use_obo_flow = true)
    (hexch : exch (extract_token_from_header (headersGet request.headers "Authorization"))
        obo_config.kusto_audience = .error err) :
    check_auth config obo_config exch call_next request =
      ⟨⟨[("error", "unauthorized"),
         ("message", "Unauthorized to get the required token to access the resource")],
        401⟩, [], false⟩ := by
  have h1 : (if headersGet request.headers "Authorization" ≠ "" then
      headersGet request.headers "Authorization"
    else headersGet request.headers "authorization") =
      headersGet request.headers "Authorization" := if_pos hheader
  simp [check_auth, hpath, hmethod, h1, hheader, hobo, hexch]

/-- Witness for C3 at a concrete request with a failing exchanger. -/
theorem C3_obo_failure_rejects_before_downstream_witness :
    check_auth ⟨true⟩ ⟨"https://kusto.kusto.windows.net"⟩
      (fun _ _ => .error "boom") (fun _ => ⟨[], 200⟩)
      ⟨"POST", "/mcp", [("Authorization", "Bearer abc")]⟩ =
      ⟨⟨[("error", "unauthorized"),
         ("message", "Unauthorized to get the required token to access the resource")],
        401⟩, [], false⟩ :=
  C3_obo_failure_rejects_before_downstream ⟨true⟩ ⟨"https://kusto.kusto.windows.net"⟩
    (fun _ _ => .error "boom") (fun _ => ⟨[], 200⟩)
    ⟨"POST", "/mcp", [("Authorization", "Bearer abc")]⟩ "boom"
    (by decide) (by decide) (by decide) rfl rfl

end FabricRti

namespace FabricRti

/-! ## Lemmas about `strip` and the cache, for C5 and C7 -/

theorem pyLStrip_append_ws {w : List Char} (hw : ∀ c ∈ w, pyIsSpace c = true)
    (s : List Char) : pyLStrip (w ++ s) = pyLStrip s := by
  induction w with
  | nil => rfl
  | cons c cs ih =>
    have hc : pyIsSpace c = true := hw c (by simp)
    simp only [List.cons_append, pyLStrip, hc, if_true]
    exact ih fun d hd => hw d (by simp [hd])

theorem pyLStrip_cons_no_ws {c : Char} {cs : List Char} (hc : pyIsSpace c = false) :
    pyLStrip (c :: cs) = c :: cs := by
  simp [pyLStrip, hc]

theorem pyStripList_sandwich {w1 w2 s : List Char}
    (h1 : ∀ c ∈ w1, pyIsSpace c = true) (h2 : ∀ c ∈ w2, pyIsSpace c = true)
    (hne : s ≠ [])
    (hhead : ∀ c, s.head? = some c → pyIsSpace c = false)
    (hlast : ∀ c, s.getLast? = some c → pyIsSpace c = false) :
    pyStripList (w1 ++ s ++ w2) = s := by
  obtain ⟨c, cs, rfl⟩ : ∃ c cs, s = c :: cs := by
    cases s with
    | nil => exact absurd rfl hne
    | cons c cs => exact ⟨c, cs, rfl⟩
  have hstep1 : pyLStrip (w1 ++ (c :: cs) ++ w2) = (c :: cs) ++ w2 := by
    rw [List.append_assoc, pyLStrip_append_ws h1]
    exact pyLStrip_cons_no_ws (hhead c rfl)
  rw [pyStripList, hstep1, List.reverse_append]
  rw [pyLStrip_append_ws (fun d hd => h2 d (List.mem_reverse.1 hd))]
  have hrev : (c :: cs).reverse ≠ [] := by simp
  obtain ⟨d, ds, hds⟩ : ∃ d ds, (c :: cs).reverse = d :: ds := by
    cases hx : (c :: cs).reverse with
    | nil => exact absurd hx hrev
    | cons d ds => exact ⟨d, ds, rfl⟩
  have hd : pyIsSpace d = false := by
    apply hlast
    rw [← List.head?_reverse, hds]
    rfl
  rw [hds, pyLStrip_cons_no_ws hd, ← hds, List.reverse_reverse]

theorem lookupStr_insertStr {α : Type} (m : List (String × α)) (k : String) (v : α) :
    lookupStr (insertStr m k v) k = some v := by
  induction m with
  | nil => simp [insertStr, lookupStr]
  | cons e rest ih =>
    by_cases h : e.1 = k
    · simp [insertStr, lookupStr, h]
    · simp [insertStr, lookupStr, h, ih]

/-! ## C5 -/

theorem sanitize_uri_variant {base u : String} (hb : goodBaseUri base = true)
    (hv : uriVariant u base) : sanitize_uri u = base := by
  have hb' := hb
  simp only [goodBaseUri, Bool.and_eq_true, Bool.not_eq_true'] at hb'
  obtain ⟨⟨⟨hne, hh⟩, hl⟩, hsl⟩ := hb'
  have hnil : base.data ≠ [] := by
    intro hx
    rw [hx] at hne
    simp at hne
  obtain ⟨b, bs, hbs⟩ : ∃ b bs, base.data = b :: bs := by
    cases hx : base.data with
    | nil => exact absurd hx hnil
    | cons b bs => exact ⟨b, bs, rfl⟩
  have hlast : ∀ c, base.data.getLast? = some c → pyIsSpace c = false ∧ (c == '/') = false := by
    intro c hc
    have : base.data.getLastD ' ' = c := by
      rw [List.getLastD_eq_getLast?, hc]
      rfl
    rw [this] at hl hsl
    exact ⟨hl, hsl⟩
  have hheadf : ∀ c, base.data.head? = some c → pyIsSpace c = false := by
    intro c hc
    rw [hbs] at hc
    simp only [List.head?_cons, Option.some.injEq] at hc
    subst hc
    rw [hbs] at hh
    simpa using hh
  obtain ⟨w1, w2, hw1, hw2, hcase | hcase⟩ := hv
  · have hstrip : pyStrip u = base := by
      apply string_ext
      show pyStripList u.data = base.data
      have : u.data = w1.data ++ base.data ++ w2.data := by
        rw [hcase, string_data_append, string_data_append]
      rw [this]
      exact pyStripList_sandwich hw1 hw2 hnil hheadf (fun c hc => (hlast c hc).1)
    rw [sanitize_uri, hstrip]
    cases hx : base.data.getLast? with
    | none => simp [hx]
    | some c =>
      have := (hlast c hx).2
      simp only [hx, Option.some.injEq]
      rw [if_neg (by simpa using this)]
  · have hstrip : pyStrip u = base ++ "/" := by
      apply string_ext
      show pyStripList u.data = (base ++ "/").data
      have he : u.data = w1.data ++ (base.data ++ ['/']) ++ w2.data := by
        rw [hcase, string_data_append, string_data_append, string_data_append]
      rw [he]
      refine pyStripList_sandwich hw1 hw2 (by simp) ?_ ?_
      · intro c hc
        rw [hbs] at hc
        simp only [List.cons_append, List.head?_cons, Option.some.injEq] at hc
        subst hc
        rw [hbs] at hh
        simpa using hh
      · intro c hc
        rw [List.getLast?_concat] at hc
        cases hc
        rfl
    rw [sanitize_uri, hstrip]
    have hlastslash : (base ++ "/").data.getLast? = some '/' := by
      rw [string_data_append]
      exact List.getLast?_concat _
    rw [hlastslash]
    rw [if_pos rfl]
    apply string_ext
    show ((base ++ "/").data).dropLast = base.data
    rw [string_data_append]
    exact List.dropLast_concat

end FabricRti

namespace FabricRti

/-- C5: two cluster URIs that differ only by surrounding whitespace or
a trailing slash are normalized to the same key before any cache
lookup or policy check, so after a successful `get` on the first, a
`get` on the second returns the identical cached `Connection` (same
`conn_id`, the model of object identity) and leaves the cache
untouched. -/
theorem C5_uri_variants_hit_same_cache_entry (cfg : KustoConfigModel)
    (m m1 : KustoConnectionManager) (c1 : KustoConnection) (base u1 u2 : String)
    (hb : goodBaseUri base = true) (h1 : uriVariant u1 base) (h2 : uriVariant u2 base)
    (hget : KustoConnectionManager.get cfg m u1 = (m1, .ok c1)) :
    KustoConnectionManager.get cfg m1 u2 = (m1, .ok c1) := by
  have s1 : sanitize_uri u1 = base := sanitize_uri_variant hb h1
  have s2 : sanitize_uri u2 = base := sanitize_uri_variant hb h2
  have hl : lookupStr m1.cache base = some c1 := by
    rw [KustoConnectionManager.get, s1] at hget
    cases hcache : lookupStr m.cache base with
    | some c =>
      rw [hcache] at hget
      obtain ⟨rfl, hc⟩ := Prod.mk.injEq .. ▸ hget
      cases hc
      exact hcache
    | none =>
      rw [hcache] at hget
      cases hknown : lookupStr cfg.known_services base with
      | some svc =>
        rw [hknown] at hget
        rw [KustoConnectionManager.createAndCache] at hget
        obtain ⟨hm, hc⟩ := Prod.mk.injEq .. ▸ hget
        cases hc
        rw [← hm]
        exact lookupStr_insertStr m.cache base _
      | none =>
        rw [hknown] at hget
        by_cases hallow : cfg.allow_unknown_services
        · rw [if_neg (by simpa using hallow)] at hget
          rw [KustoConnectionManager.createAndCache] at hget
          obtain ⟨hm, hc⟩ := Prod.mk.injEq .. ▸ hget
          cases hc
          rw [← hm]
          exact lookupStr_insertStr m.cache base _
        · rw [if_pos (by simpa using hallow)] at hget
          obtain ⟨hm, hc⟩ := Prod.mk.injEq .. ▸ hget
          cases hc
  rw [KustoConnectionManager.get, s2, hl]

/-- Witness for C5: `"https://a.kusto.windows.net/"` then
`" https://a.kusto.windows.net "` return the same freshly cached
connection. -/
theorem C5_uri_variants_hit_same_cache_entry_witness :
    KustoConnectionManager.get ⟨[], true, "db"⟩
      ⟨[("https://a.kusto.windows.net",
         ⟨"https://a.kusto.windows.net", "db", 0⟩)], 1⟩
      " https://a.kusto.windows.net " =
      (⟨[("https://a.kusto.windows.net",
          ⟨"https://a.kusto.windows.net", "db", 0⟩)], 1⟩,
       .ok ⟨"https://a.kusto.windows.net", "db", 0⟩) :=
  C5_uri_variants_hit_same_cache_entry ⟨[], true, "db"⟩ ⟨[], 0⟩ _ _
    "https://a.kusto.windows.net"
    "https://a.kusto.windows.net/" " https://a.kusto.windows.net "
    (by decide)
    ⟨"", "", by decide, by decide, Or.inr rfl⟩
    ⟨" ", " ", by decide, by decide, Or.inl rfl⟩
    rfl

end FabricRti

namespace FabricRti

/-- C7: for a normalized URI neither cached nor in the known-endpoints
allowlist: with unknown endpoints disallowed, `get` raises the policy
`ValueError` and caches nothing (the state is returned unchanged);
with them allowed, `get` succeeds, caches the new connection under the
normalized key, and the connection's default database is the
system-wide fallback name (stripped nonempty fallback shown
verbatim). -/
theorem C7_unknown_endpoint_policy (cfg : KustoConfigModel)
    (m : KustoConnectionManager) (u : String)
    (hcache : lookupStr m.cache (sanitize_uri u) = none)
    (hknown : lookupStr cfg.known_services (sanitize_uri u) = none)
    (hdb : pyStrip cfg.default_db_name = cfg.default_db_name ∧ cfg.default_db_name ≠ "") :
    (cfg.allow_unknown_services = false →
      KustoConnectionManager.get cfg m u =
        (m, .error (.valueError ("Service URI '" ++ sanitize_uri u ++
          "' is not in the list of approved services, and unknown connections are not permitted by the administrator.")))) ∧
    (cfg.allow_unknown_services = true →
      ∃ conn : KustoConnection,
        KustoConnectionManager.get cfg m u =
          (⟨insertStr m.cache (sanitize_uri u) conn, m.next_id + 1⟩, .ok conn) ∧
        conn.default_database = cfg.default_db_name ∧
        conn.cluster_uri = sanitize_uri (sanitize_uri u)) := by
  constructor
  · intro hallow
    rw [KustoConnectionManager.get, hcache, hknown, if_pos (by simp [hallow])]
  · intro hallow
    refine ⟨KustoConnection.create (sanitize_uri u) (some cfg.default_db_name) m.next_id,
      ?_, ?_, rfl⟩
    · rw [KustoConnectionManager.get, hcache, hknown, if_neg (by simp [hallow])]
      rfl
    · show pyStrip (if cfg.default_db_name = "" then DEFAULT_DATABASE_NAME
        else cfg.default_db_name) = cfg.default_db_name
      rw [if_neg hdb.2, hdb.1]

/-- Witness for C7: both policy outcomes at the concrete URI
`"https://unknown.cluster"`. -/
theorem C7_unknown_endpoint_policy_witness :
    (KustoConnectionManager.get ⟨[], false, "db"⟩ ⟨[], 0⟩ "https://unknown.cluster" =
      (⟨[], 0⟩, .error (.valueError ("Service URI 'https://unknown.cluster' is not in the list of approved services, and unknown connections are not permitted by the administrator.")))) ∧
    (∃ conn : KustoConnection,
      KustoConnectionManager.get ⟨[], true, "db"⟩ ⟨[], 0⟩ "https://unknown.cluster" =
        (⟨[("https://unknown.cluster", conn)], 1⟩, .ok conn) ∧
      conn.default_database = "db" ∧
      conn.cluster_uri = "https://unknown.cluster") :=
  ⟨(C7_unknown_endpoint_policy ⟨[], false, "db"⟩ ⟨[], 0⟩ "https://unknown.cluster"
      rfl rfl ⟨rfl, by decide⟩).1 rfl,
   (C7_unknown_endpoint_policy ⟨[], true, "db"⟩ ⟨[], 0⟩ "https://unknown.cluster"
      rfl rfl ⟨rfl, by decide⟩).2 rfl⟩

end FabricRti

namespace FabricRti

/-! ## Dict-building lemmas, shared by the decoder proofs -/

theorem dictSet_append_of_forall {d : List (PyVal × PyVal)} {k v : PyVal}
    (h : ∀ e ∈ d, pyScalarEq e.1 k = false) : dictSet d k v = d ++ [(k, v)] := by
  induction d with
  | nil => rfl
  | cons e rest ih =>
    rw [dictSet]
    rw [if_neg (by simp [h e (by simp)])]
    rw [ih fun x hx => h x (by simp [hx])]
    rfl

theorem mapM_ok {α β : Type} (f : α → Except PyErr β) (g : α → β) (l : List α)
    (h : ∀ a ∈ l, f a = .ok (g a)) : l.mapM f = .ok (l.map g) := by
  induction l with
  | nil => rfl
  | cons a rest ih =>
    rw [List.mapM_cons, h a (by simp), List.map_cons]
    rw [ih fun x hx => h x (by simp [hx])]
    rfl

theorem dictGet_map_str {entries : List (String × List PyVal)}
    {e : String × List PyVal}
    (hnd : (entries.map Prod.fst).Nodup) (he : e ∈ entries) :
    dictGet (entries.map fun x => (PyVal.str x.1, PyVal.list x.2))
      (PyVal.str e.1) (.list []) = .list e.2 := by
  induction entries with
  | nil => cases he
  | cons x rest ih =>
    rw [List.map_cons, dictGet]
    rcases List.mem_cons.1 he with rfl | hmem
    · rw [if_pos (by simp [pyScalarEq])]
    · have hne : x.1 ≠ e.1 := by
        intro hx
        have : e.1 ∈ rest.map Prod.fst := List.mem_map_of_mem Prod.fst hmem
        rw [← hx] at this
        exact (List.nodup_cons.1 hnd).1 this
      rw [if_neg (by simp [pyScalarEq, hne])]
      exact ih (List.nodup_cons.1 hnd).2 hmem

/-! ## C6 -/

theorem columnarRowVal_eq (E : List (PyVal × PyVal)) (i : Nat)
    (e : String × List PyVal)
    (hget : dictGet E (PyVal.str e.1) (.list []) = .list e.2) :
    KustoFormatter.columnarRowVal E (PyVal.str e.1) i = .ok (e.2.getD i PyVal.null) := by
  rw [KustoFormatter.columnarRowVal, hget]
  show Except.ok (if i < e.2.length then KustoFormatter.pySeqIndex (.list e.2) i
    else PyVal.null) = _
  by_cases hi : i < e.2.length
  · rw [if_pos hi]
    rfl
  · rw [if_neg hi]
    rw [List.getD_eq_default _ _ (by omega)]

theorem except_ok_bind {α β : Type} (a : α) (f : α → Except PyErr β) :
    (Except.ok a : Except PyErr α) >>= f = f a := rfl

theorem columnarRow_foldlM (E : List (PyVal × PyVal)) (i : Nat)
    (entries' : List (String × List PyVal)) (acc : List (PyVal × PyVal))
    (hget : ∀ e ∈ entries',
      dictGet E (PyVal.str e.1) (.list []) = .list e.2)
    (hnd : (entries'.map Prod.fst).Nodup)
    (hacc : ∀ p ∈ acc, ∀ e ∈ entries', pyScalarEq p.1 (PyVal.str e.1) = false) :
    (entries'.map fun e => PyVal.str e.1).foldlM
      (fun d c => do
        let v ← KustoFormatter.columnarRowVal E c i
        (Except.ok (dictSet d c v) : Except PyErr (List (PyVal × PyVal)))) acc =
      .ok (acc ++ entries'.map fun e => (PyVal.str e.1, e.2.getD i PyVal.null)) := by
  induction entries' generalizing acc with
  | nil =>
    simp only [List.map_nil, List.foldlM_nil, List.append_nil]
    rfl
  | cons e rest ih =>
    rw [List.map_cons, List.foldlM_cons]
    rw [columnarRowVal_eq E i e (hget e (by simp)), except_ok_bind]
    show (rest.map fun e => PyVal.str e.1).foldlM _
      (dictSet acc (PyVal.str e.1) (e.2.getD i PyVal.null)) = _
    rw [dictSet_append_of_forall fun p hp => hacc p hp e (by simp)]
    rw [ih _ (fun x hx => hget x (by simp [hx])) (List.nodup_cons.1 hnd).2 ?_]
    · simp
    · intro p hp x hx
      rcases List.mem_append.1 hp with hp | hp
      · exact hacc p hp x (by simp [hx])
      · have hpe : p = (PyVal.str e.1, e.2.getD i PyVal.null) := by simpa using hp
        subst hpe
        have hne : e.1 ≠ x.1 := by
          intro hc
          have : x.1 ∈ rest.map Prod.fst := List.mem_map_of_mem Prod.fst hx
          rw [← hc] at this
          exact (List.nodup_cons.1 hnd).1 this
        simp [pyScalarEq, hne]

theorem parse_columnar_cons (k vsv : PyVal) (rest : List (PyVal × PyVal)) :
    KustoFormatter._parse_columnar (.dict ((k, vsv) :: rest)) =
      (do
        let row_count ← KustoFormatter.pySeqLen (dictGet ((k, vsv) :: rest) k (.list []))
        let rows ← (List.range row_count).mapM fun row_idx => do
          let d ← KustoFormatter.columnarRow ((k, vsv) :: rest)
            (((k, vsv) :: rest).map (fun x => x.1)) row_idx
          (pure (PyVal.dict d) : Except PyErr PyVal)
        Except.ok (.list rows)) :=
  rfl

/-- C6: decoding a columnar payload (string column names, list values)
never raises, even with mismatched column lengths: the row count is
the length of the first column's list, rows are rebuilt index-wise,
and a column shorter than the row index contributes null. -/
theorem C6_parse_columnar_pads_with_null (entries : List (String × List PyVal))
    (hnd : (entries.map Prod.fst).Nodup) :
    KustoFormatter._parse_columnar
      (.dict (entries.map fun e => (PyVal.str e.1, PyVal.list e.2))) =
      .ok (.list ((List.range ((entries.headD ("", [])).2.length)).map fun i =>
        .dict (entries.map fun e => (PyVal.str e.1, e.2.getD i PyVal.null)))) := by
  cases entries with
  | nil => rfl
  | cons e0 rest =>
    have h1 : dictGet ((e0 :: rest).map fun e => (PyVal.str e.1, PyVal.list e.2))
        (PyVal.str e0.1) (.list []) = .list e0.2 := dictGet_map_str hnd (by simp)
    have hrow : ∀ i, KustoFormatter.columnarRow
        ((e0 :: rest).map fun e => (PyVal.str e.1, PyVal.list e.2))
        (((e0 :: rest).map fun e => (PyVal.str e.1, PyVal.list e.2)).map (fun x => x.1)) i =
        .ok ((e0 :: rest).map fun e => (PyVal.str e.1, e.2.getD i PyVal.null)) := by
      intro i
      rw [KustoFormatter.columnarRow]
      have hmapfst :
          (((e0 :: rest).map fun e => (PyVal.str e.1, PyVal.list e.2)).map (fun x => x.1)) =
            (e0 :: rest).map fun e => PyVal.str e.1 := by
        simp
      rw [hmapfst]
      exact columnarRow_foldlM _ i (e0 :: rest) []
        (fun x hx => dictGet_map_str hnd hx) hnd (by simp)
    rw [List.map_cons] at h1 hrow ⊢
    rw [parse_columnar_cons, h1]
    rw [show KustoFormatter.pySeqLen (PyVal.list e0.2) = Except.ok e0.2.length from rfl,
      except_ok_bind]
    rw [mapM_ok _ (fun i => PyVal.dict ((PyVal.str e0.1, e0.2.getD i PyVal.null) ::
        rest.map fun e => (PyVal.str e.1, e.2.getD i PyVal.null))) _ ?_]
    · rw [except_ok_bind]
      simp
    · intro i _
      show (do
        let d ← KustoFormatter.columnarRow _ _ i
        (pure (PyVal.dict d) : Except PyErr PyVal)) = _
      rw [hrow i, except_ok_bind]
      simp
      rfl

/-- Witness for C6 at a concrete two-column payload with mismatched
lengths. -/
theorem C6_parse_columnar_pads_with_null_witness :
    KustoFormatter._parse_columnar
      (.dict [(PyVal.str "a", PyVal.list [.int 1, .int 2]),
              (PyVal.str "b", PyVal.list [.int 9])]) =
      .ok (.list [.dict [(PyVal.str "a", .int 1), (PyVal.str "b", .int 9)],
                  .dict [(PyVal.str "a", .int 2), (PyVal.str "b", PyVal.null)]]) := by
  have h := C6_parse_columnar_pads_with_null
    [("a", [.int 1, .int 2]), ("b", [.int 9])] (by decide)
  simpa using h

end FabricRti

namespace FabricRti

/-! ## C2 -/

theorem buildHaRow_ok_aux (vs : List PyVal) (headers : List PyVal)
    (d : List (PyVal × PyVal)) (i : Nat)
    (hhash : ∀ h ∈ headers, pyHashable h = true) :
    KustoFormatter.buildHaRowLoop vs d i headers = .ok (haRowPureLoop vs d i headers) := by
  induction headers generalizing d i with
  | nil => rfl
  | cons h hs ih =>
    rw [KustoFormatter.buildHaRowLoop, haRowPureLoop, if_pos (hhash h (by simp))]
    exact ih _ _ fun x hx => hhash x (by simp [hx])

theorem buildHaRow_ok (headers vs : List PyVal)
    (hhash : ∀ h ∈ headers, pyHashable h = true) :
    KustoFormatter.buildHaRow headers vs = .ok (haRowPure headers vs) :=
  buildHaRow_ok_aux vs headers [] 0 hhash

theorem haLines_all_wellformed (headers : List PyVal)
    (hhash : ∀ h ∈ headers, pyHashable h = true) (rest : List String)
    (acc : List PyVal) (hok : ∀ l ∈ rest, (jloads l).isNone = false) :
    KustoFormatter.haLines headers acc rest =
      .ok (.list (acc.reverse ++ rest.filterMap fun l =>
        match jloads l with
        | some (.list vs) => some (.dict (haRowPure headers vs))
        | _ => none)) := by
  induction rest generalizing acc with
  | nil => simp [KustoFormatter.haLines]
  | cons l ls ih =>
    have hok' : ∀ x ∈ ls, (jloads x).isNone = false := fun x hx => hok x (by simp [hx])
    cases hl : jloads l with
    | none =>
      have hcontra := hok l (by simp)
      rw [hl] at hcontra
      simp at hcontra
    | some v =>
      cases v with
      | list vs =>
        simp only [KustoFormatter.haLines, hl, buildHaRow_ok headers vs hhash,
          except_ok_bind]
        rw [ih _ hok']
        simp [hl]
      | str sv =>
        simp only [KustoFormatter.haLines, hl]
        rw [ih _ hok']
        simp [hl]
      | int nv =>
        simp only [KustoFormatter.haLines, hl]
        rw [ih _ hok']
        simp [hl]
      | bool bv =>
        simp only [KustoFormatter.haLines, hl]
        rw [ih _ hok']
        simp [hl]
      | null =>
        simp only [KustoFormatter.haLines, hl]
        rw [ih _ hok']
        simp [hl]
      | float fv =>
        simp only [KustoFormatter.haLines, hl]
        rw [ih _ hok']
        simp [hl]
      | dict dv =>
        simp only [KustoFormatter.haLines, hl]
        rw [ih _ hok']
        simp [hl]

theorem haLines_corrupt_discards (headers : List PyVal)
    (hhash : ∀ h ∈ headers, pyHashable h = true) (rest : List String)
    (acc : List PyVal) (hbad : ∃ l ∈ rest, (jloads l).isNone = true) :
    KustoFormatter.haLines headers acc rest = .ok (.list []) := by
  induction rest generalizing acc with
  | nil => obtain ⟨l, hl, _⟩ := hbad; cases hl
  | cons l ls ih =>
    cases hl : jloads l with
    | none => simp [KustoFormatter.haLines, hl]
    | some v =>
      have hbad' : ∃ x ∈ ls, (jloads x).isNone = true := by
        obtain ⟨x, hx, hxn⟩ := hbad
        rcases List.mem_cons.1 hx with rfl | hx'
        · rw [hl] at hxn; cases hxn
        · exact ⟨x, hx', hxn⟩
      cases v with
      | list vs =>
        simp only [KustoFormatter.haLines, hl, buildHaRow_ok headers vs hhash,
          except_ok_bind]
        exact ih _ hbad'
      | str sv =>
        simp only [KustoFormatter.haLines, hl]
        exact ih _ hbad'
      | int nv =>
        simp only [KustoFormatter.haLines, hl]
        exact ih _ hbad'
      | bool bv =>
        simp only [KustoFormatter.haLines, hl]
        exact ih _ hbad'
      | null =>
        simp only [KustoFormatter.haLines, hl]
        exact ih _ hbad'
      | float fv =>
        simp only [KustoFormatter.haLines, hl]
        exact ih _ hbad'
      | dict dv =>
        simp only [KustoFormatter.haLines, hl]
        exact ih _ hbad'

/-- C2 (amended): for a `header_arrays` payload whose header line
parses as a JSON array of hashable headers, the decoder skips a
subsequent line only when it is valid JSON that is not an array; the
rows of all array lines are returned in order in that case.  But when
any subsequent line is not valid JSON, the `JSONDecodeError` is caught
outside the loop and the decoder returns the empty list, discarding
every previously decoded row (it does not fail, and it does not keep
the well-formed rows). -/
theorem C2_header_arrays_line_tolerance (s first : String) (rest : List String)
    (headers : List PyVal)
    (hsplit : (splitChar '
' (pyStripList s.data)).map
      (fun l => (⟨l⟩ : String)) = first :: rest)
    (hheader : jloads first = some (.list headers))
    (hhash : ∀ h ∈ headers, pyHashable h = true) :
    ((∀ l ∈ rest, (jloads l).isNone = false) →
      KustoFormatter._parse_header_arrays (.str s) =
        .ok (.list (rest.filterMap fun l =>
          match jloads l with
          | some (.list vs) => some (.dict (haRowPure headers vs))
          | _ => none))) ∧
    ((∃ l ∈ rest, (jloads l).isNone = true) →
      KustoFormatter._parse_header_arrays (.str s) = .ok (.list [])) := by
  have hstart : KustoFormatter._parse_header_arrays (.str s) =
      KustoFormatter.haLines headers [] rest := by
    simp only [KustoFormatter._parse_header_arrays, hsplit, hheader]
  constructor
  · intro hok
    rw [hstart, haLines_all_wellformed headers hhash rest [] hok]
    rfl
  · intro hbad
    rw [hstart]
    exact haLines_corrupt_discards headers hhash rest [] hbad

/-- Witness for C2 at a payload whose second line is valid JSON but
not an array (skipped) and whose remaining lines are arrays. -/
theorem C2_header_arrays_line_tolerance_witness :
    KustoFormatter._parse_header_arrays (.str "[\"c\"]\n17\n[\"a\"]") =
      .ok (.list [.dict [(PyVal.str "c", PyVal.str "a")]]) := by
  have h := (C2_header_arrays_line_tolerance "[\"c\"]\n17\n[\"a\"]"
    "[\"c\"]" ["17", "[\"a\"]"] [PyVal.str "c"] rfl rfl (by decide)).1
    (by decide)
  simpa using h

/-- Counterexample to C2 as stated: one corrupt (non-JSON) line makes
the decoder return `[]`, discarding the row already decoded from the
well-formed line `["a"]`. -/
theorem C2_counterexample :
    KustoFormatter.parse (some ⟨"header_arrays", .str "[\"c\"]\n[\"a\"]\nnot json"⟩) =
      .ok (.list []) ∧
    PyVal.list [] ≠ PyVal.list [.dict [(PyVal.str "c", PyVal.str "a")]] := by
  constructor
  · rfl
  · intro h
    simp at h

end FabricRti

namespace FabricRti

/-! ## Lemmas about `replace`, for the TSV escape/unescape proofs -/

theorem replace1_append (a : Char) (rep x y : List Char) :
    replace1 a rep (x ++ y) = replace1 a rep x ++ replace1 a rep y := by
  induction x with
  | nil => rfl
  | cons c cs ih =>
    by_cases hc : c = a
    · simp [replace1, hc, ih]
    · simp [replace1, hc, ih]

theorem replace1_id_of_notMem {a : Char} {s : List Char} (h : a ∉ s) (rep : List Char) :
    replace1 a rep s = s := by
  induction s with
  | nil => rfl
  | cons c cs ih =>
    have hc : c ≠ a := fun hx => h (hx ▸ List.mem_cons_self c cs)
    simp only [replace1, if_neg hc]
    rw [ih fun hx => h (List.mem_cons_of_mem c hx)]

theorem notMem_replace1 {b a : Char} {rep s : List Char} (hrep : b ∉ rep)
    (hs : b ∉ s ∨ b = a) : b ∉ replace1 a rep s := by
  induction s with
  | nil => simp [replace1]
  | cons c cs ih =>
    have hs' : b ∉ cs ∨ b = a := by
      rcases hs with hs | hs
      · exact Or.inl fun hx => hs (List.mem_cons_of_mem c hx)
      · exact Or.inr hs
    rw [replace1]
    by_cases hc : c = a
    · rw [if_pos hc]
      intro hmem
      rcases List.mem_append.1 hmem with h | h
      · exact hrep h
      · exact ih hs' h
    · rw [if_neg hc]
      intro hmem
      rcases List.mem_cons.1 hmem with h | h
      · rcases hs with hs | hs
        · exact hs (h ▸ List.mem_cons_self c cs)
        · exact hc (h ▸ hs ▸ rfl)
      · exact ih hs' h

theorem replace2_cons_ne {a : Char} (b : Char) (rep : List Char) {c : Char}
    (w : List Char) (hc : c ≠ a) :
    replace2 a b rep (c :: w) = c :: replace2 a b rep w := by
  cases w with
  | nil => rfl
  | cons d ds =>
    rw [replace2, if_neg (by simp [hc])]

theorem replace2_id_of_notMem_fst {a : Char} (b : Char) (rep : List Char)
    {s : List Char} (h : a ∉ s) : replace2 a b rep s = s := by
  induction s with
  | nil => rfl
  | cons c cs ih =>
    have hc : c ≠ a := fun hx => h (hx ▸ List.mem_cons_self c cs)
    rw [replace2_cons_ne b rep cs hc]
    rw [ih fun hx => h (List.mem_cons_of_mem c hx)]

end FabricRti

namespace FabricRti

theorem replace1_cons (a : Char) (rep : List Char) (c : Char) (cs : List Char) :
    replace1 a rep (c :: cs) = (if c = a then rep else [c]) ++ replace1 a rep cs := by
  by_cases h : c = a <;> simp [replace1, h]

theorem tsvEscape_cons {c : Char} {cs : List Char} (hno : ('\\' : Char) ∉ c :: cs) :
    KustoFormatter.tsvEscape (c :: cs) = tsvEchunk c ++ KustoFormatter.tsvEscape cs := by
  have hncs : ('\\' : Char) ∉ cs := fun h => hno (List.mem_cons_of_mem c h)
  rw [KustoFormatter.tsvEscape, KustoFormatter.tsvEscape]
  rw [replace1_id_of_notMem hno, replace1_id_of_notMem hncs]
  rw [replace1_cons '\t', replace1_append, replace1_append]
  congr 1
  by_cases h1 : c = '\t'
  · subst h1
    rfl
  · rw [if_neg h1]
    by_cases h2 : c = '\n'
    · subst h2
      rfl
    · rw [replace1_cons '\n', if_neg h2]
      show replace1 '\r' ['\\', 'r'] (c :: ([] ++ [])) = tsvEchunk c
      by_cases h3 : c = '\r'
      · subst h3
        rfl
      · rw [replace1_cons '\r', if_neg h3]
        simp [tsvEchunk, h1, h2, h3, replace1]

theorem tsvUnescape_chunk (c : Char) (hc : c ≠ '\\') (W : List Char) :
    KustoFormatter.tsvUnescape (tsvEchunk c ++ W) =
      c :: KustoFormatter.tsvUnescape W := by
  by_cases h1 : c = '\t'
  · subst h1
    show KustoFormatter.tsvUnescape ('\\' :: 't' :: W) = _
    rw [KustoFormatter.tsvUnescape, KustoFormatter.tsvUnescape]
    rw [show replace2 '\\' 't' ['\t'] ('\\' :: 't' :: W) =
      ['\t'] ++ replace2 '\\' 't' ['\t'] W from by rw [replace2, if_pos ⟨rfl, rfl⟩]]
    rw [show (['\t'] ++ replace2 '\\' 't' ['\t'] W) =
      '\t' :: replace2 '\\' 't' ['\t'] W from rfl]
    rw [replace2_cons_ne _ _ _ (by decide), replace2_cons_ne _ _ _ (by decide),
      replace2_cons_ne _ _ _ (by decide)]
  · by_cases h2 : c = '\n'
    · subst h2
      show KustoFormatter.tsvUnescape ('\\' :: 'n' :: W) = _
      rw [KustoFormatter.tsvUnescape, KustoFormatter.tsvUnescape]
      rw [show replace2 '\\' 't' ['\t'] ('\\' :: 'n' :: W) =
        '\\' :: replace2 '\\' 't' ['\t'] ('n' :: W) from by
          rw [replace2, if_neg (by decide)]]
      rw [replace2_cons_ne _ _ _ (show ('n' : Char) ≠ '\\' from by decide)]
      rw [show replace2 '\\' 'n' ['\n'] ('\\' :: 'n' :: replace2 '\\' 't' ['\t'] W) =
        '\n' :: replace2 '\\' 'n' ['\n'] (replace2 '\\' 't' ['\t'] W) from by
          rw [replace2, if_pos ⟨rfl, rfl⟩]; rfl]
      rw [replace2_cons_ne _ _ _ (by decide), replace2_cons_ne _ _ _ (by decide)]
    · by_cases h3 : c = '\r'
      · subst h3
        show KustoFormatter.tsvUnescape ('\\' :: 'r' :: W) = _
        rw [KustoFormatter.tsvUnescape, KustoFormatter.tsvUnescape]
        rw [show replace2 '\\' 't' ['\t'] ('\\' :: 'r' :: W) =
          '\\' :: replace2 '\\' 't' ['\t'] ('r' :: W) from by
            rw [replace2, if_neg (by decide)]]
        rw [replace2_cons_ne _ _ _ (show ('r' : Char) ≠ '\\' from by decide)]
        rw [show replace2 '\\' 'n' ['\n'] ('\\' :: 'r' :: replace2 '\\' 't' ['\t'] W) =
          '\\' :: 'r' :: replace2 '\\' 'n' ['\n'] (replace2 '\\' 't' ['\t'] W) from by
            rw [replace2, if_neg (by decide)]
            rw [replace2_cons_ne _ _ _ (show ('r' : Char) ≠ '\\' from by decide)]]
        rw [show replace2 '\\' 'r' ['\r']
            ('\\' :: 'r' :: replace2 '\\' 'n' ['\n'] (replace2 '\\' 't' ['\t'] W)) =
          '\r' :: replace2 '\\' 'r' ['\r']
            (replace2 '\\' 'n' ['\n'] (replace2 '\\' 't' ['\t'] W)) from by
            rw [replace2, if_pos ⟨rfl, rfl⟩]; rfl]
        rw [replace2_cons_ne _ _ _ (by decide)]
      · show KustoFormatter.tsvUnescape (tsvEchunk c ++ W) = _
        rw [show tsvEchunk c = [c] from by simp [tsvEchunk, h1, h2, h3]]
        rw [KustoFormatter.tsvUnescape, KustoFormatter.tsvUnescape]
        rw [show ([c] ++ W) = c :: W from rfl]
        rw [replace2_cons_ne _ _ _ hc, replace2_cons_ne _ _ _ hc,
          replace2_cons_ne _ _ _ hc, replace2_cons_ne _ _ _ hc]

/-- Unescaping inverts escaping on every backslash-free value. -/
theorem tsvUnescape_tsvEscape {v : List Char} (hno : ('\\' : Char) ∉ v) :
    KustoFormatter.tsvUnescape (KustoFormatter.tsvEscape v) = v := by
  induction v with
  | nil => rfl
  | cons c cs ih =>
    have hc : c ≠ '\\' := fun h => hno (h ▸ List.mem_cons_self c cs)
    rw [tsvEscape_cons hno, tsvUnescape_chunk c hc,
      ih fun h => hno (List.mem_cons_of_mem c h)]

theorem tsvEscape_id {v : List Char} (h : ∀ c ∈ v,
    c ≠ '\\' ∧ c ≠ '\t' ∧ c ≠ '\n' ∧ c ≠ '\r') :
    KustoFormatter.tsvEscape v = v := by
  rw [KustoFormatter.tsvEscape]
  rw [replace1_id_of_notMem (fun hx => ((h _ hx).1 rfl)) _]
  rw [replace1_id_of_notMem (fun hx => ((h _ hx).2.1 rfl)) _]
  rw [replace1_id_of_notMem (fun hx => ((h _ hx).2.2.1 rfl)) _]
  rw [replace1_id_of_notMem (fun hx => ((h _ hx).2.2.2 rfl)) _]

theorem tsvUnescape_id {w : List Char} (h : ('\\' : Char) ∉ w) :
    KustoFormatter.tsvUnescape w = w := by
  rw [KustoFormatter.tsvUnescape]
  rw [replace2_id_of_notMem_fst _ _ h, replace2_id_of_notMem_fst _ _ h,
    replace2_id_of_notMem_fst _ _ h, replace2_id_of_notMem_fst _ _ h]

end FabricRti

namespace FabricRti

/-! ## Lemmas about `split`, `join` and `strip` -/

theorem splitChar_ne_nil (sep : Char) (s : List Char) : splitChar sep s ≠ [] := by
  cases s with
  | nil => simp [splitChar]
  | cons c cs =>
    rw [splitChar]
    cases h : splitChar sep cs with
    | nil => simp
    | cons x t =>
      by_cases hc : c = sep <;> simp [hc]

theorem splitChar_no_sep {sep : Char} {s : List Char} (h : sep ∉ s) :
    splitChar sep s = [s] := by
  induction s with
  | nil => rfl
  | cons c cs ih =>
    have hc : c ≠ sep := fun hx => h (hx ▸ List.mem_cons_self c cs)
    rw [splitChar, ih fun hx => h (List.mem_cons_of_mem c hx)]
    simp [hc]

theorem splitChar_append_sep {sep : Char} {p : List Char} (t : List Char)
    (h : sep ∉ p) : splitChar sep (p ++ sep :: t) = p :: splitChar sep t := by
  induction p with
  | nil =>
    rw [List.nil_append, splitChar]
    cases ht : splitChar sep t with
    | nil => exact absurd ht (splitChar_ne_nil sep t)
    | cons x xs => simp
  | cons c cs ih =>
    have hc : c ≠ sep := fun hx => h (hx ▸ List.mem_cons_self c cs)
    rw [List.cons_append, splitChar, ih fun hx => h (List.mem_cons_of_mem c hx)]
    simp [hc]

theorem joinSep_cons₂ (sep x y : List Char) (ys : List (List Char)) :
    joinSep sep (x :: y :: ys) = x ++ sep ++ joinSep sep (y :: ys) := rfl

theorem splitChar_joinSep {sep : Char} {ps : List (List Char)} (hne : ps ≠ [])
    (h : ∀ p ∈ ps, sep ∉ p) : splitChar sep (joinSep [sep] ps) = ps := by
  induction ps with
  | nil => exact absurd rfl hne
  | cons p qs ih =>
    cases qs with
    | nil => exact splitChar_no_sep (h p (by simp))
    | cons q qs' =>
      rw [joinSep_cons₂]
      rw [show p ++ [sep] ++ joinSep [sep] (q :: qs') =
        p ++ sep :: joinSep [sep] (q :: qs') from by simp]
      rw [splitChar_append_sep _ (h p (by simp))]
      rw [ih (by simp) fun x hx => h x (by simp [hx])]

theorem joinSep_cons_ne_nil {sep : List Char} {p : List Char} (ps : List (List Char))
    (hp : p ≠ []) : joinSep sep (p :: ps) ≠ [] := by
  cases ps with
  | nil => simpa [joinSep] using hp
  | cons q qs =>
    rw [joinSep_cons₂]
    simp [hp]

theorem joinSep_head? {sep : List Char} {p : List Char} {c : Char}
    (ps : List (List Char)) (hp : p.head? = some c) :
    (joinSep sep (p :: ps)).head? = some c := by
  cases p with
  | nil => cases hp
  | cons x xs =>
    simp only [List.head?_cons, Option.some.injEq] at hp
    subst hp
    cases ps with
    | nil => rfl
    | cons q qs => rfl

theorem joinSep_getLast? {sep : List Char} (ps : List (List Char)) (p : List Char)
    (hlast : ps.getLast? = some p) (hall : ∀ q ∈ ps, q ≠ []) :
    (joinSep sep ps).getLast? = p.getLast? := by
  induction ps with
  | nil => cases hlast
  | cons q qs ih =>
    cases qs with
    | nil =>
      simp only [List.getLast?_singleton, Option.some.injEq] at hlast
      subst hlast
      rfl
    | cons q2 qs' =>
      rw [joinSep_cons₂]
      have hjoin : joinSep sep (q2 :: qs') ≠ [] :=
        joinSep_cons_ne_nil qs' (hall q2 (by simp))
      have h2 : (sep ++ joinSep sep (q2 :: qs')) ≠ [] := by simp [hjoin]
      rw [List.append_assoc, List.getLast?_append_of_ne_nil _ h2,
        List.getLast?_append_of_ne_nil _ hjoin]
      rw [ih ?_ fun x hx => hall x (by simp [hx])]
      rw [List.getLast?_cons_cons] at hlast
      exact hlast

theorem mem_joinSep {c : Char} {sep : List Char} {ps : List (List Char)}
    (h : c ∈ joinSep sep ps) : c ∈ sep ∨ ∃ p ∈ ps, c ∈ p := by
  induction ps with
  | nil => cases h
  | cons p qs ih =>
    cases qs with
    | nil => exact Or.inr ⟨p, by simp, h⟩
    | cons q qs' =>
      rw [joinSep_cons₂] at h
      rcases List.mem_append.1 h with h1 | h1
      · rcases List.mem_append.1 h1 with h2 | h2
        · exact Or.inr ⟨p, by simp, h2⟩
        · exact Or.inl h2
      · rcases ih h1 with h2 | h3
        · exact Or.inl h2
        · obtain ⟨x, hx, hcx⟩ := h3
          exact Or.inr ⟨x, by simp [hx], hcx⟩

theorem pyStripList_id {s : List Char} (hne : s ≠ [])
    (hh : ∀ c, s.head? = some c → pyIsSpace c = false)
    (hl : ∀ c, s.getLast? = some c → pyIsSpace c = false) :
    pyStripList s = s := by
  have h := @pyStripList_sandwich [] [] s (by simp) (by simp) hne hh hl
  simpa using h

theorem map_mk_map_data (l : List String) :
    ((l.map String.data).map fun x => (⟨x⟩ : String)) = l := by
  rw [List.map_map]
  have : ((fun x => (⟨x⟩ : String)) ∘ String.data) = id := by
    funext s
    exact string_eta s
  rw [this, List.map_id]

end FabricRti

namespace FabricRti

/-! ## Facts about `tsvEscape` output, for C1 and C4 -/

theorem replace1_ne_nil {a : Char} {rep s : List Char} (hs : s ≠ []) (hrep : rep ≠ []) :
    replace1 a rep s ≠ [] := by
  cases s with
  | nil => exact absurd rfl hs
  | cons c cs =>
    rw [replace1]
    by_cases hc : c = a
    · simp [hc, hrep]
    · simp [hc]

theorem tsvEscape_ne_nil {v : List Char} (hv : v ≠ []) :
    KustoFormatter.tsvEscape v ≠ [] := by
  rw [KustoFormatter.tsvEscape]
  exact replace1_ne_nil (replace1_ne_nil (replace1_ne_nil (replace1_ne_nil hv
    (by simp)) (by simp)) (by simp)) (by simp)

theorem notMem_tab_tsvEscape (v : List Char) :
    ('\t' : Char) ∉ KustoFormatter.tsvEscape v := by
  rw [KustoFormatter.tsvEscape]
  refine notMem_replace1 (by decide) (Or.inl ?_)
  refine notMem_replace1 (by decide) (Or.inl ?_)
  exact notMem_replace1 (by decide) (Or.inr rfl)

theorem notMem_nl_tsvEscape (v : List Char) :
    ('\n' : Char) ∉ KustoFormatter.tsvEscape v := by
  rw [KustoFormatter.tsvEscape]
  refine notMem_replace1 (by decide) (Or.inl ?_)
  exact notMem_replace1 (by decide) (Or.inr rfl)

theorem tsvEscape_getLast_safe {v : List Char} (hv : v ≠ [])
    (hno : ('\\' : Char) ∉ v)
    (hlast : ∀ c, v.getLast? = some c → c ≠ ' ' ∧ c ≠ '\x0b' ∧ c ≠ '\x0c') :
    ∀ c, (KustoFormatter.tsvEscape v).getLast? = some c → pyIsSpace c = false := by
  induction v with
  | nil => exact absurd rfl hv
  | cons x cs ih =>
    intro c hc
    rw [tsvEscape_cons hno] at hc
    cases hcs : cs with
    | nil =>
      subst hcs
      rw [show KustoFormatter.tsvEscape [] = [] from rfl, List.append_nil] at hc
      have hl := hlast x (by rfl)
      by_cases h1 : x = '\t'
      · subst h1
        cases hc
        rfl
      · by_cases h2 : x = '\n'
        · subst h2
          cases hc
          rfl
        · by_cases h3 : x = '\r'
          · subst h3
            cases hc
            rfl
          · rw [show tsvEchunk x = [x] from by simp [tsvEchunk, h1, h2, h3]] at hc
            simp only [List.getLast?_singleton, Option.some.injEq] at hc
            subst hc
            simp [pyIsSpace, h2, h3, hl.1, hl.2.1, hl.2.2]
            intro hx
            exact h1 hx
    | cons y ys =>
      have hcsne : cs ≠ [] := by simp [hcs]
      have hescne : KustoFormatter.tsvEscape cs ≠ [] := tsvEscape_ne_nil hcsne
      rw [List.getLast?_append_of_ne_nil _ hescne] at hc
      refine ih hcsne (fun h => hno (List.mem_cons_of_mem x h)) ?_ c hc
      intro d hd
      apply hlast
      rw [hcs] at hd ⊢
      rw [List.getLast?_cons_cons]
      exact hd

end FabricRti


namespace FabricRti

theorem tsvGoodName_spec {s : String} (h : tsvGoodName s = true) :
    s.data ≠ [] ∧ (∀ c ∈ s.data, c ≠ '\t' ∧ c ≠ '\n') ∧
      (∀ c, s.data.head? = some c → pyIsSpace c = false) ∧
      (∀ c, s.data.getLast? = some c → pyIsSpace c = false) := by
  simp only [tsvGoodName, Bool.and_eq_true, Bool.not_eq_true', List.all_eq_true,
    beq_eq_false_iff_ne, ne_eq] at h
  obtain ⟨⟨⟨h1, h2⟩, h3⟩, h4⟩ := h
  refine ⟨by simpa using h1, fun c hc => ?_, fun c hc => ?_, fun c hc => ?_⟩
  · have := h2 c hc
    simp only [Bool.and_eq_true, Bool.not_eq_true', beq_eq_false_iff_ne, ne_eq] at this
    exact this
  · have : s.data.headD 'x' = c := by
      cases hd : s.data with
      | nil => rw [hd] at hc; cases hc
      | cons a as =>
        rw [hd] at hc
        simp only [List.head?_cons, Option.some.injEq] at hc
        simp [hc]
    rw [this] at h3
    exact h3
  · have : s.data.getLastD 'x' = c := by
      rw [List.getLastD_eq_getLast?, hc]
      rfl
    rw [this] at h4
    exact h4

theorem tsvGoodVal_spec {s : String} (h : tsvGoodVal s = true) :
    s.data ≠ [] ∧ (('\\' : Char) ∉ s.data) ∧
      (∀ c, s.data.getLast? = some c → c ≠ ' ' ∧ c ≠ '\x0b' ∧ c ≠ '\x0c') := by
  simp only [tsvGoodVal, Bool.and_eq_true, Bool.not_eq_true', List.all_eq_true,
    beq_eq_false_iff_ne, ne_eq] at h
  obtain ⟨⟨⟨⟨h1, h2⟩, h3⟩, h4⟩, h5⟩ := h
  refine ⟨by simpa using h1, fun hc => ?_, fun c hc => ?_⟩
  · have := h2 _ hc
    simp at this
  · have hd : s.data.getLastD 'x' = c := by
      rw [List.getLastD_eq_getLast?, hc]
      rfl
    rw [hd] at h3 h4 h5
    exact ⟨h3, h4, h5⟩

theorem tsvRowDictLoop_zip (values : List String) (headers vals : List String)
    (i : Nat) (d : List (PyVal × PyVal))
    (hlen : vals.length = headers.length)
    (hval : ∀ pos, values.getD (i + pos) "" = vals.getD pos "")
    (hnd : headers.Nodup)
    (hacc : ∀ p ∈ d, ∀ h ∈ headers, pyScalarEq p.1 (PyVal.str h) = false) :
    KustoFormatter.tsvRowDictLoop values d i headers =
      d ++ (headers.zip vals).map fun hv =>
        (PyVal.str hv.1,
          if hv.2 = "" then PyVal.null
          else if (⟨KustoFormatter.tsvUnescape hv.2.data⟩ : String) = "" then PyVal.null
          else PyVal.str (⟨KustoFormatter.tsvUnescape hv.2.data⟩ : String)) := by
  induction headers generalizing vals i d with
  | nil => simp [KustoFormatter.tsvRowDictLoop]
  | cons h hs ih =>
    obtain ⟨v, vs, rfl⟩ : ∃ v vs, vals = v :: vs := by
      cases vals with
      | nil => simp at hlen
      | cons v vs => exact ⟨v, vs, rfl⟩
    have hv0 : values.getD i "" = v := by
      have := hval 0
      simpa using this
    rw [KustoFormatter.tsvRowDictLoop]
    simp only [hv0]
    rw [dictSet_append_of_forall fun p hp => hacc p hp h (by simp)]
    rw [ih vs (i + 1) _ (by simpa using hlen) ?_ (List.nodup_cons.1 hnd).2 ?_]
    · simp only [List.zip_cons_cons, List.map_cons, List.append_assoc,
        List.singleton_append]
      by_cases hve : v = ""
      · simp [hve]
      · simp [hve]
    · intro pos
      have := hval (pos + 1)
      rw [show i + (pos + 1) = i + 1 + pos from by omega] at this
      simpa using this
    · intro p hp x hx
      rcases List.mem_append.1 hp with hp | hp
      · exact hacc p hp x (by simp [hx])
      · rw [List.mem_singleton] at hp
        subst hp
        have hne : h ≠ x := by
          intro hc
          rw [hc] at hnd
          exact (List.nodup_cons.1 hnd).1 hx
        simp [pyScalarEq, hne]

theorem tsvRowDict_zip (headers vals : List String)
    (hlen : vals.length = headers.length) (hnd : headers.Nodup) :
    KustoFormatter.tsvRowDict headers vals =
      (headers.zip vals).map fun hv =>
        (PyVal.str hv.1,
          if hv.2 = "" then PyVal.null
          else if (⟨KustoFormatter.tsvUnescape hv.2.data⟩ : String) = "" then PyVal.null
          else PyVal.str (⟨KustoFormatter.tsvUnescape hv.2.data⟩ : String)) := by
  have h := tsvRowDictLoop_zip vals headers vals 0 [] hlen (by simp) hnd (by simp)
  simpa [KustoFormatter.tsvRowDict] using h

end FabricRti

namespace FabricRti

theorem parse_dispatch_tsv (s : String) :
    KustoFormatter.parse (some ⟨"tsv", .str s⟩) = KustoFormatter._parse_tsv (.str s) := rfl

/-- The last character of a separator-join is safe whenever the last
character of every (nonempty) piece is. -/
theorem joinSep_getLast_safe {sep : List Char} {ps : List (List Char)} (hne : ps ≠ [])
    (hall : ∀ q ∈ ps, q ≠ [])
    (hsafe : ∀ q ∈ ps, ∀ c, q.getLast? = some c → pyIsSpace c = false) :
    ∀ c, (joinSep sep ps).getLast? = some c → pyIsSpace c = false := by
  intro c hc
  have hp : ps.getLast? = some (ps.getLast hne) := List.getLast?_eq_getLast ps hne
  rw [joinSep_getLast? ps _ hp hall] at hc
  exact hsafe _ (List.getLast_mem hne) c hc

end FabricRti

namespace FabricRti

/-- The TSV round trip for a table of string cells: good column names,
backslash-free nonempty values not ending in a strippable character. -/
theorem tsv_roundtrip (cols : List String) (rows : List (List String))
    (hcols : cols ≠ []) (hnd : cols.Nodup)
    (hgood : ∀ c ∈ cols, tsvGoodName c = true)
    (hrows : ∀ r ∈ rows, r.length = cols.length ∧ ∀ v ∈ r, tsvGoodVal v = true) :
    KustoFormatter.parse (some (KustoFormatter.to_tsv
      (some ⟨[⟨cols, rows.map fun r => r.map PyVal.str⟩]⟩))) =
      .ok (.list (rows.map fun r =>
        .dict ((cols.map PyVal.str).zip (r.map PyVal.str)))) := by
  have hto : KustoFormatter.to_tsv (some ⟨[⟨cols, rows.map fun r => r.map PyVal.str⟩]⟩) =
      ⟨"tsv", .str ⟨joinSep ['\n']
        (joinSep ['\t'] (cols.map String.data) ::
          rows.map fun r => joinSep ['\t']
            (r.map fun v => KustoFormatter.tsvEscape v.data))⟩⟩ := by
    show KustoResponseFormat.mk "tsv" (.str ⟨joinSep ['\n']
      (joinSep ['\t'] (cols.map String.data) ::
        (rows.map fun r => r.map PyVal.str).map fun row =>
          joinSep ['\t'] (row.map KustoFormatter.tsvCell))⟩) = _
    rw [show (rows.map fun r => r.map PyVal.str).map (fun row =>
        joinSep ['\t'] (row.map KustoFormatter.tsvCell)) =
        rows.map fun r => joinSep ['\t']
          (r.map fun v => KustoFormatter.tsvEscape v.data) from by
      rw [List.map_map]
      apply List.map_congr_left
      intro r _
      show joinSep ['\t'] ((r.map PyVal.str).map KustoFormatter.tsvCell) = _
      rw [List.map_map]
      rfl]
  rw [hto, parse_dispatch_tsv]
  have hrne : ∀ r ∈ rows, r ≠ [] := by
    intro r hr hcon
    have hlen := (hrows r hr).1
    rw [hcon] at hlen
    simp at hlen
    exact hcols (List.length_eq_zero.1 hlen.symm)
  have hvgood : ∀ r ∈ rows, ∀ v ∈ r, tsvGoodVal v = true := fun r hr => (hrows r hr).2
  have hcolne : ∀ p ∈ cols.map String.data, p ≠ [] := by
    intro p hp
    obtain ⟨cname, hc, rfl⟩ := List.mem_map.1 hp
    exact (tsvGoodName_spec (hgood cname hc)).1
  have hHne : joinSep ['\t'] (cols.map String.data) ≠ [] := by
    obtain ⟨c0, cols', rfl⟩ : ∃ c0 cols', cols = c0 :: cols' := by
      cases cols with
      | nil => exact absurd rfl hcols
      | cons c0 cols' => exact ⟨c0, cols', rfl⟩
    rw [List.map_cons]
    exact joinSep_cons_ne_nil _ (hcolne c0.data (by simp))
  have hlinene : ∀ l ∈ (rows.map fun r => joinSep ['\t']
      (r.map fun v => KustoFormatter.tsvEscape v.data)), l ≠ [] := by
    intro l hl
    obtain ⟨r, hr, rfl⟩ := List.mem_map.1 hl
    obtain ⟨v, r', rfl⟩ : ∃ v r', r = v :: r' := by
      cases r with
      | nil => exact absurd rfl (hrne [] hr)
      | cons v r' => exact ⟨v, r', rfl⟩
    rw [List.map_cons]
    exact joinSep_cons_ne_nil _ (tsvEscape_ne_nil
      (tsvGoodVal_spec (hvgood _ hr v (by simp))).1)
  have hPne : joinSep ['\n'] (joinSep ['\t'] (cols.map String.data) ::
      rows.map fun r => joinSep ['\t'] (r.map fun v => KustoFormatter.tsvEscape v.data)) ≠
      [] := joinSep_cons_ne_nil _ hHne
  have hstrip : pyStripList (joinSep ['\n']
      (joinSep ['\t'] (cols.map String.data) ::
        rows.map fun r => joinSep ['\t']
          (r.map fun v => KustoFormatter.tsvEscape v.data))) =
      joinSep ['\n'] (joinSep ['\t'] (cols.map String.data) ::
        rows.map fun r => joinSep ['\t']
          (r.map fun v => KustoFormatter.tsvEscape v.data)) := by
    apply pyStripList_id hPne
    · intro c hc
      obtain ⟨c0, cols', rfl⟩ : ∃ c0 cols', cols = c0 :: cols' := by
        cases cols with
        | nil => exact absurd rfl hcols
        | cons c0 cols' => exact ⟨c0, cols', rfl⟩
      have hg0 := tsvGoodName_spec (hgood c0 (by simp))
      obtain ⟨ch0, hch0⟩ : ∃ ch0, c0.data.head? = some ch0 := by
        cases hd : c0.data with
        | nil => exact absurd hd hg0.1
        | cons a as => exact ⟨a, rfl⟩
      have hh : (joinSep ['\t'] ((c0 :: cols').map String.data)).head? = some ch0 := by
        rw [List.map_cons]
        exact joinSep_head? _ hch0
      rw [joinSep_head? _ hh] at hc
      cases hc
      exact hg0.2.2.1 _ hch0
    · apply joinSep_getLast_safe (by simp) ?_ ?_
      · intro q hq
        rcases List.mem_cons.1 hq with rfl | hq'
        · exact hHne
        · exact hlinene q hq'
      · intro q hq
        rcases List.mem_cons.1 hq with rfl | hq'
        · apply joinSep_getLast_safe (by simpa using hcols) hcolne
          intro p hp
          obtain ⟨cname, hcn, rfl⟩ := List.mem_map.1 hp
          exact (tsvGoodName_spec (hgood cname hcn)).2.2.2
        · obtain ⟨r, hr, rfl⟩ := List.mem_map.1 hq'
          apply joinSep_getLast_safe (by simpa using hrne r hr) ?_ ?_
          · intro x hx
            obtain ⟨v, hv, rfl⟩ := List.mem_map.1 hx
            exact tsvEscape_ne_nil (tsvGoodVal_spec (hvgood r hr v hv)).1
          · intro x hx
            obtain ⟨v, hv, rfl⟩ := List.mem_map.1 hx
            have hsp := tsvGoodVal_spec (hvgood r hr v hv)
            exact tsvEscape_getLast_safe hsp.1 hsp.2.1 hsp.2.2
  have hsplit : splitChar '\n' (joinSep ['\n']
      (joinSep ['\t'] (cols.map String.data) ::
        rows.map fun r => joinSep ['\t']
          (r.map fun v => KustoFormatter.tsvEscape v.data))) =
      joinSep ['\t'] (cols.map String.data) ::
        rows.map fun r => joinSep ['\t']
          (r.map fun v => KustoFormatter.tsvEscape v.data) := by
    apply splitChar_joinSep (by simp)
    intro p hp
    rcases List.mem_cons.1 hp with rfl | hp'
    · intro hmem
      rcases mem_joinSep hmem with h1 | ⟨q, hq, hcq⟩
      · simp at h1
      · obtain ⟨cname, hcn, rfl⟩ := List.mem_map.1 hq
        exact ((tsvGoodName_spec (hgood cname hcn)).2.1 _ hcq).2 rfl
    · obtain ⟨r, hr, rfl⟩ := List.mem_map.1 hp'
      intro hmem
      rcases mem_joinSep hmem with h1 | ⟨q, hq, hcq⟩
      · simp at h1
      · obtain ⟨v, hv, rfl⟩ := List.mem_map.1 hq
        exact notMem_nl_tsvEscape _ hcq
  have hsplith : splitChar '\t' (joinSep ['\t'] (cols.map String.data)) =
      cols.map String.data := by
    apply splitChar_joinSep (by simpa using hcols)
    intro p hp
    obtain ⟨cname, hcn, rfl⟩ := List.mem_map.1 hp
    intro hmem
    exact ((tsvGoodName_spec (hgood cname hcn)).2.1 _ hmem).1 rfl
  rw [KustoFormatter._parse_tsv]
  rw [if_neg (show ¬ ((⟨joinSep ['\n'] (joinSep ['\t'] (cols.map String.data) ::
      rows.map fun r => joinSep ['\t']
        (r.map fun v => KustoFormatter.tsvEscape v.data))⟩ : String) = "") from
    fun h => hPne (congrArg String.data h))]
  rw [show (⟨joinSep ['\n'] (joinSep ['\t'] (cols.map String.data) ::
      rows.map fun r => joinSep ['\t']
        (r.map fun v => KustoFormatter.tsvEscape v.data))⟩ : String).data =
    joinSep ['\n'] (joinSep ['\t'] (cols.map String.data) ::
      rows.map fun r => joinSep ['\t']
        (r.map fun v => KustoFormatter.tsvEscape v.data)) from rfl]
  rw [hstrip, hsplit, List.map_cons]
  show (Except.ok (PyVal.list (((rows.map fun r => joinSep ['\t']
      (r.map fun v => KustoFormatter.tsvEscape v.data)).map
      (fun l => (⟨l⟩ : String))).map fun line =>
        PyVal.dict (KustoFormatter.tsvRowDict
          ((splitChar '\t' (joinSep ['\t'] (cols.map String.data))).map
            fun l => (⟨l⟩ : String))
          ((splitChar '\t' line.data).map fun l => (⟨l⟩ : String)))))
    : Except PyErr PyVal) = _
  rw [hsplith, map_mk_map_data, List.map_map, List.map_map]
  congr 2
  apply List.map_congr_left
  intro r hr
  show PyVal.dict (KustoFormatter.tsvRowDict cols
      ((splitChar '\t' ((⟨joinSep ['\t']
        (r.map fun v => KustoFormatter.tsvEscape v.data)⟩ : String).data)).map
        fun l => (⟨l⟩ : String))) = _
  rw [show ((⟨joinSep ['\t'] (r.map fun v => KustoFormatter.tsvEscape v.data)⟩ :
    String).data) = joinSep ['\t'] (r.map fun v => KustoFormatter.tsvEscape v.data) from rfl]
  rw [show splitChar '\t' (joinSep ['\t'] (r.map fun v => KustoFormatter.tsvEscape v.data)) =
      r.map fun v => KustoFormatter.tsvEscape v.data from by
    apply splitChar_joinSep (by simpa using hrne r hr)
    intro p hp
    obtain ⟨v, hv, rfl⟩ := List.mem_map.1 hp
    exact notMem_tab_tsvEscape _]
  rw [List.map_map]
  show PyVal.dict (KustoFormatter.tsvRowDict cols
    (r.map fun v => (⟨KustoFormatter.tsvEscape v.data⟩ : String))) = _
  rw [tsvRowDict_zip cols (r.map fun v =>
      (⟨KustoFormatter.tsvEscape v.data⟩ : String)) (by simpa using (hrows r hr).1) hnd]
  congr 1
  rw [List.zip_map_right, List.map_map]
  rw [show (cols.map PyVal.str).zip (r.map PyVal.str) =
    (cols.zip r).map (Prod.map PyVal.str PyVal.str) from (List.zip_map _ _ _ _)]
  apply List.map_congr_left
  intro p hp
  have hvmem : p.2 ∈ r := (List.of_mem_zip hp).2
  have hsp := tsvGoodVal_spec (hvgood r hr p.2 hvmem)
  show (PyVal.str p.1,
    if (⟨KustoFormatter.tsvEscape p.2.data⟩ : String) = "" then PyVal.null
    else if (⟨KustoFormatter.tsvUnescape
        (⟨KustoFormatter.tsvEscape p.2.data⟩ : String).data⟩ : String) = "" then PyVal.null
    else PyVal.str (⟨KustoFormatter.tsvUnescape
        (⟨KustoFormatter.tsvEscape p.2.data⟩ : String).data⟩ : String)) = _
  rw [if_neg (show ¬ ((⟨KustoFormatter.tsvEscape p.2.data⟩ : String) = "") from
    fun h => tsvEscape_ne_nil hsp.1 (congrArg String.data h))]
  rw [show ((⟨KustoFormatter.tsvEscape p.2.data⟩ : String).data) =
    KustoFormatter.tsvEscape p.2.data from rfl]
  rw [tsvUnescape_tsvEscape hsp.2.1, string_eta]
  rw [if_neg (show ¬ (p.2 = "") from fun h => hsp.1 (congrArg String.data h))]
  rfl

end FabricRti

namespace FabricRti

/-! ## CSV reader lemmas -/

theorem csvGo_step_plain (st : CsvState) (hst : st ≠ CsvState.inQuoted)
    (fld : List Char) (rec : List String) (c : Char) (cs : List Char)
    (hc : c ≠ ',' ∧ c ≠ '"' ∧ c ≠ '\r' ∧ c ≠ '\n') :
    csvGo st fld rec (c :: cs) = csvGo .inField (fld ++ [c]) rec cs := by
  rw [csvGo.eq_def]
  split
  · simp_all
  · simp_all
  · simp_all
  · simp_all
  · simp_all
  · simp_all
  · rename_i heq
    rw [List.cons.injEq] at heq
    obtain ⟨rfl, rfl⟩ := heq
    cases st with
    | inQuoted => exact absurd rfl hst
    | startRecord => rfl
    | startField => rfl
    | inField => rfl
    | quoteInQuoted => rfl

theorem csvGo_step_inQuoted (fld : List Char) (rec : List String) (c : Char)
    (cs : List Char) (hc : c ≠ '"') :
    csvGo .inQuoted fld rec (c :: cs) = csvGo .inQuoted (fld ++ [c]) rec cs := by
  rw [csvGo.eq_def]
  split
  all_goals simp_all

end FabricRti

namespace FabricRti

theorem csvGo_step_quote_startRecord (fld : List Char) (rec : List String) (cs : List Char) :
    csvGo .startRecord fld rec ('"' :: cs) = csvGo .inQuoted [] rec cs := rfl

theorem csvGo_step_quote_inQuoted (fld : List Char) (rec : List String) (cs : List Char) :
    csvGo .inQuoted fld rec ('"' :: cs) = csvGo .quoteInQuoted fld rec cs := rfl

theorem csvGo_step_quote_quoteInQuoted (fld : List Char) (rec : List String) (cs : List Char) :
    csvGo .quoteInQuoted fld rec ('"' :: cs) = csvGo .inQuoted (fld ++ ['"']) rec cs := rfl

theorem csvGo_crlf_inField (fld : List Char) (rec : List String) (cs : List Char) :
    csvGo .inField fld rec ('\x0d' :: '\n' :: cs) =
      (rec ++ [⟨fld⟩]) :: csvGo .startRecord [] [] cs := rfl

theorem csvGo_crlf_quoteInQuoted (fld : List Char) (rec : List String) (cs : List Char) :
    csvGo .quoteInQuoted fld rec ('\x0d' :: '\n' :: cs) =
      (rec ++ [⟨fld⟩]) :: csvGo .startRecord [] [] cs := rfl

end FabricRti

namespace FabricRti

theorem csvGo_consume_plain (p : List Char)
    (hp : ∀ c ∈ p, c ≠ ',' ∧ c ≠ '"' ∧ c ≠ '\x0d' ∧ c ≠ '\n')
    (fld : List Char) (rec : List String) (rest : List Char) :
    csvGo .inField fld rec (p ++ rest) = csvGo .inField (fld ++ p) rec rest := by
  induction p generalizing fld with
  | nil => simp
  | cons c p ih =>
    rw [List.cons_append,
        csvGo_step_plain .inField (fun h => CsvState.noConfusion h) fld rec c (p ++ rest)
          (hp c (List.mem_cons_self c p)),
        ih (fun d hd => hp d (List.mem_cons_of_mem c hd)) (fld ++ [c])]
    simp

theorem csvGo_consume_escq (v : List Char) (fld : List Char) (rec : List String)
    (rest : List Char) :
    csvGo .inQuoted fld rec (replace1 '"' ['"', '"'] v ++ rest) =
      csvGo .inQuoted (fld ++ v) rec rest := by
  induction v generalizing fld with
  | nil => simp [replace1]
  | cons c v ih =>
    by_cases hc : c = '"'
    · subst hc
      have hshape : replace1 '"' ['"', '"'] ('"' :: v) ++ rest =
          '"' :: '"' :: (replace1 '"' ['"', '"'] v ++ rest) := by
        simp [replace1]
      rw [hshape, csvGo_step_quote_inQuoted, csvGo_step_quote_quoteInQuoted,
          ih (fld ++ ['"'])]
      simp
    · have hshape : replace1 '"' ['"', '"'] (c :: v) ++ rest =
          c :: (replace1 '"' ['"', '"'] v ++ rest) := by
        simp [replace1, hc]
      rw [hshape, csvGo_step_inQuoted fld rec c _ hc, ih (fld ++ [c])]
      simp

theorem csvWriteRow_single (v : String) (hv : v ≠ "") :
    csvWriteRow [v] = csvWriteField v ++ ['\x0d', '\n'] := by
  rw [csvWriteRow.eq_def]
  split
  · simp_all
  · simp [joinSep]

end FabricRti

namespace FabricRti

theorem parse_dispatch_csv (s : String) :
    KustoFormatter.parse (some ⟨"csv", .str s⟩) = KustoFormatter._parse_csv (.str s) := rfl

/-- The reader run over the payload `to_csv` emits for one column `"c"`
and one quoted value `v`. -/
theorem csvReader_header_quoted (v : List Char) :
    csvReader ('c' :: '\x0d' :: '\n' :: '"' ::
        (replace1 '"' ['"', '"'] v ++ ['"', '\x0d', '\n'])) = [["c"], [⟨v⟩]] := by
  rw [csvReader,
      csvGo_step_plain .startRecord (fun h => CsvState.noConfusion h) [] [] 'c' _ (by decide)]
  simp only [List.nil_append]
  rw [csvGo_crlf_inField, csvGo_step_quote_startRecord, csvGo_consume_escq]
  simp only [List.nil_append]
  rw [csvGo_step_quote_inQuoted, csvGo_crlf_quoteInQuoted]
  rfl

end FabricRti

namespace FabricRti

theorem splitChar_length_not_lt_one (sep : Char) (s : List Char) :
    ¬ (splitChar sep s).length < 1 := by
  cases h : splitChar sep s with
  | nil => exact absurd h (splitChar_ne_nil _ _)
  | cons a t => simp

/-- Round trip of one quoted CSV value under one plain header: the
`QUOTE_MINIMAL` writer quotes and doubles, the reader undoes both. -/
theorem csv_single_quoted_roundtrip (v : String) (hv : csvNeedsQuote v = true) :
    KustoFormatter.parse (some (KustoFormatter.to_csv
      (some ⟨[⟨["c"], [[PyVal.str v]]⟩]⟩))) =
      .ok (.list [.dict [(PyVal.str "c", PyVal.str v)]]) := by
  have hvne : v ≠ "" := by
    intro h
    subst h
    exact absurd hv (by decide)
  have hto : KustoFormatter.to_csv (some ⟨[⟨["c"], [[PyVal.str v]]⟩]⟩) =
      ⟨"csv", .str ⟨'c' :: '\x0d' :: '\n' :: csvWriteRow [v]⟩⟩ := rfl
  rw [hto, parse_dispatch_csv, KustoFormatter._parse_csv]
  rw [if_neg (show ¬ ((⟨'c' :: '\x0d' :: '\n' :: csvWriteRow [v]⟩ : String) = "") from
    fun h => List.noConfusion (congrArg String.data h))]
  rw [if_neg (splitChar_length_not_lt_one '\n' _)]
  have hrow : csvWriteRow [v] = '"' :: (replace1 '"' ['"', '"'] v.data ++ ['"', '\x0d', '\n']) := by
    rw [csvWriteRow_single v hvne, csvWriteField, if_pos hv]
    simp
  rw [show (⟨'c' :: '\x0d' :: '\n' :: csvWriteRow [v]⟩ : String).data =
      'c' :: '\x0d' :: '\n' :: csvWriteRow [v] from rfl, hrow,
    csvReader_header_quoted v.data]
  show (Except.ok (PyVal.list [PyVal.dict
      (KustoFormatter.csvRowDict ["c"] [(⟨v.data⟩ : String)])]) : Except PyErr PyVal) = _
  rw [string_eta]
  show (Except.ok (PyVal.list [PyVal.dict [(PyVal.str "c",
      if v = "" then PyVal.null else PyVal.str v)]]) : Except PyErr PyVal) = _
  rw [if_neg hvne]

end FabricRti

namespace FabricRti

/-- C4 counterexample: the TSV escape/unescape pair is not an exact
inverse on values containing a newline.  The three-character value
backslash, `t`, newline is escaped to `\\t\n` and the decoder's
replace chain turns it into backslash, TAB, newline: the `\\`
produced for the literal backslash feeds the later `\t` replacement
because the backslash replacement runs last on decode but first on
encode. -/
theorem C4_counterexample :
    KustoFormatter.parse (some (KustoFormatter.to_tsv
      (some ⟨[⟨["c"], [[PyVal.str "\\t\n"]]⟩]⟩))) =
      .ok (.list [.dict [(PyVal.str "c", PyVal.str "\\\t\n")]]) ∧
    PyVal.str "\\\t\n" ≠ PyVal.str "\\t\n" := by
  constructor
  · rfl
  · intro h
    injection h with h'
    exact absurd h' (by decide)

/-- C4 (amended): a value the `QUOTE_MINIMAL` CSV writer must quote
(it contains the separator, the quote character, or a line-terminator
character) round-trips exactly through `to_csv` and `_parse_csv`; a
value containing TAB, newline or carriage return round-trips exactly
through `to_tsv` and `_parse_tsv` provided it also contains no
backslash and does not end in a strippable whitespace character.
Without the backslash restriction the TSV decode is not an exact
inverse of the encode (see the counterexample). -/
theorem C4_separator_value_roundtrip (v w : String)
    (hv : csvNeedsQuote v = true)
    (hw : tsvGoodVal w = true)
    (hwc : w.data.any (fun c => c = '\t' ∨ c = '\n' ∨ c = '\x0d') = true) :
    KustoFormatter.parse (some (KustoFormatter.to_csv
      (some ⟨[⟨["c"], [[PyVal.str v]]⟩]⟩))) =
      .ok (.list [.dict [(PyVal.str "c", PyVal.str v)]]) ∧
    KustoFormatter.parse (some (KustoFormatter.to_tsv
      (some ⟨[⟨["c"], [[PyVal.str w]]⟩]⟩))) =
      .ok (.list [.dict [(PyVal.str "c", PyVal.str w)]]) := by
  constructor
  · exact csv_single_quoted_roundtrip v hv
  · have h := tsv_roundtrip ["c"] [[w]] (by simp) (by simp)
      (by intro c hc; simp at hc; subst hc; decide)
      (by intro r hr; simp at hr; subst hr;
          exact ⟨rfl, by intro x hx; simp at hx; subst hx; exact hw⟩)
    exact h

/-- Witness for the amended C4 theorem at `v = "a,b"`, `w`
containing a TAB. -/
theorem C4_separator_value_roundtrip_witness :
    csvNeedsQuote "a,b" = true ∧ tsvGoodVal "a\tb" = true ∧
    ("a\tb" : String).data.any (fun c => c = '\t' ∨ c = '\n' ∨ c = '\x0d') = true ∧
    (KustoFormatter.parse (some (KustoFormatter.to_csv
      (some ⟨[⟨["c"], [[PyVal.str "a,b"]]⟩]⟩))) =
      .ok (.list [.dict [(PyVal.str "c", PyVal.str "a,b")]]) ∧
    KustoFormatter.parse (some (KustoFormatter.to_tsv
      (some ⟨[⟨["c"], [[PyVal.str "a\tb"]]⟩]⟩))) =
      .ok (.list [.dict [(PyVal.str "c", PyVal.str "a\tb")]])) :=
  ⟨by decide, by decide, by decide,
    C4_separator_value_roundtrip "a,b" "a\tb" (by decide) (by decide) (by decide)⟩

end FabricRti

namespace FabricRti

/-! ## C1: json round trip -/

theorem foldl_dictSet_distinct (ps : List (PyVal × PyVal)) :
    ∀ acc, (∀ a ∈ acc, ∀ p ∈ ps, pyScalarEq a.1 p.1 = false) →
    (ps.Pairwise fun p q => pyScalarEq p.1 q.1 = false) →
    ps.foldl (fun d kv => dictSet d kv.1 kv.2) acc = acc ++ ps := by
  induction ps with
  | nil => intro acc _ _; simp
  | cons p ps ih =>
    intro acc hacc hps
    rw [List.foldl_cons,
        dictSet_append_of_forall (fun a ha => hacc a ha p (List.mem_cons_self p ps)),
        ih (acc ++ [p]) ?_ (List.pairwise_cons.1 hps).2]
    · simp
    · intro a ha q hq
      rcases List.mem_append.1 ha with ha' | ha'
      · exact hacc a ha' q (List.mem_cons_of_mem p hq)
      · have : a = p := by simpa using ha'
        subst this
        exact (List.pairwise_cons.1 hps).1 q hq

theorem dictFromPairs_distinct (ps : List (PyVal × PyVal))
    (hps : ps.Pairwise fun p q => pyScalarEq p.1 q.1 = false) :
    dictFromPairs ps = ps := by
  rw [dictFromPairs, foldl_dictSet_distinct ps [] (by simp) hps]
  simp

theorem zip_pairwise_keys (cols : List String) (vals : List PyVal) (hnd : cols.Nodup) :
    ((cols.map PyVal.str).zip vals).Pairwise fun p q => pyScalarEq p.1 q.1 = false := by
  induction cols generalizing vals with
  | nil => simp
  | cons c cs ih =>
    cases vals with
    | nil => simp
    | cons v vs =>
      rw [List.map_cons, List.zip_cons_cons, List.pairwise_cons]
      constructor
      · intro q hq
        have h1 : q.1 ∈ cs.map PyVal.str := (List.of_mem_zip hq).1
        obtain ⟨c', hc', heq⟩ := List.mem_map.1 h1
        have hne : c ≠ c' := fun h => (List.nodup_cons.1 hnd).1 (h ▸ hc')
        rw [← heq]
        simp [pyScalarEq, hne]
      · exact ih vs (List.nodup_cons.1 hnd).2

/-- The json encoder/decoder pair is the identity on any single-table
result whose column names are pairwise distinct. -/
theorem json_roundtrip (cols : List String) (rows : List (List PyVal)) (hnd : cols.Nodup) :
    KustoFormatter.parse (some (KustoFormatter.to_json (some ⟨[⟨cols, rows⟩]⟩))) =
      .ok (.list (rows.map fun row => .dict ((cols.map PyVal.str).zip row))) := by
  have hto : KustoFormatter.to_json (some ⟨[⟨cols, rows⟩]⟩) =
      ⟨"json", .list (rows.map fun row =>
        .dict (dictFromPairs ((cols.map PyVal.str).zip row)))⟩ := rfl
  rw [hto]
  rw [show KustoFormatter.parse (some ⟨"json", .list (rows.map fun row =>
      .dict (dictFromPairs ((cols.map PyVal.str).zip row)))⟩) =
      Except.ok (PyVal.list (rows.map fun row =>
        .dict (dictFromPairs ((cols.map PyVal.str).zip row)))) from rfl]
  congr 2
  apply List.map_congr_left
  intro row _
  rw [dictFromPairs_distinct _ (zip_pairwise_keys cols row hnd)]

end FabricRti

namespace FabricRti

/-! ## C1: csv round trip -/

theorem csvGo_comma_inField (fld : List Char) (rec : List String) (cs : List Char) :
    csvGo .inField fld rec (',' :: cs) = csvGo .startField [] (rec ++ [⟨fld⟩]) cs := rfl

theorem joinSep_nil_sep (x : List Char) (xs : List (List Char)) :
    joinSep [] (x :: xs) = x ++ joinSep [] xs := by
  cases xs with
  | nil => simp [joinSep]
  | cons y ys => rw [joinSep_cons₂]; simp

theorem csvNeedsQuote_false {s : String} (h : csvNeedsQuote s = false) :
    ∀ c ∈ s.data, c ≠ ',' ∧ c ≠ '"' ∧ c ≠ '\x0d' ∧ c ≠ '\n' := by
  intro c hc
  rw [csvNeedsQuote, List.any_eq_false] at h
  have := h c hc
  simp at this
  exact ⟨this.1, this.2.1, this.2.2.1, this.2.2.2⟩

theorem csvGo_row (fs : List String) : fs ≠ [] →
    (∀ f ∈ fs, f.data ≠ [] ∧ ∀ c ∈ f.data, c ≠ ',' ∧ c ≠ '"' ∧ c ≠ '\x0d' ∧ c ≠ '\n') →
    ∀ (st : CsvState), (st = CsvState.startRecord ∨ st = CsvState.startField) →
    ∀ (rec : List String) (rest : List Char),
    csvGo st [] rec (joinSep [','] (fs.map String.data) ++ '\x0d' :: '\n' :: rest) =
      (rec ++ fs) :: csvGo .startRecord [] [] rest := by
  induction fs with
  | nil => intro hne; exact absurd rfl hne
  | cons f fs ih =>
    intro _ hplain st hst rec rest
    have hstq : st ≠ CsvState.inQuoted := by
      rcases hst with rfl | rfl <;> exact fun h => CsvState.noConfusion h
    obtain ⟨c, cs, hf⟩ : ∃ c cs, f.data = c :: cs := by
      cases h : f.data with
      | nil => exact absurd h (hplain f (by simp)).1
      | cons c cs => exact ⟨c, cs, rfl⟩
    have hcplain : ∀ d ∈ f.data, d ≠ ',' ∧ d ≠ '"' ∧ d ≠ '\x0d' ∧ d ≠ '\n' :=
      (hplain f (by simp)).2
    cases fs with
    | nil =>
      rw [List.map_cons, List.map_nil]
      show csvGo st [] rec (f.data ++ '\x0d' :: '\n' :: rest) = _
      rw [hf, List.cons_append,
          csvGo_step_plain st hstq [] rec c _ (hcplain c (by simp [hf])),
          List.nil_append,
          csvGo_consume_plain cs (fun d hd => hcplain d (by simp [hf, hd])) [c] rec _]
      rw [show ([c] ++ cs : List Char) = f.data from by simp [hf]]
      rw [csvGo_crlf_inField, string_eta]
    | cons f2 fs2 =>
      have hshape : joinSep [','] ((f :: f2 :: fs2).map String.data) ++ '\x0d' :: '\n' :: rest =
          c :: (cs ++ (',' :: (joinSep [','] ((f2 :: fs2).map String.data) ++
            '\x0d' :: '\n' :: rest))) := by
        simp only [List.map_cons]
        rw [joinSep_cons₂, hf]
        simp
      rw [hshape,
          csvGo_step_plain st hstq [] rec c _ (hcplain c (by simp [hf])),
          List.nil_append,
          csvGo_consume_plain cs (fun d hd => hcplain d (by simp [hf, hd])) [c] rec _]
      rw [show ([c] ++ cs : List Char) = f.data from by simp [hf]]
      rw [csvGo_comma_inField, string_eta]
      rw [ih (by simp) (fun x hx => hplain x (by simp [hx])) .startField (Or.inr rfl)
        (rec ++ [f]) rest]
      simp

theorem csvGo_rows (recs : List (List String)) :
    (∀ fs ∈ recs, fs ≠ [] ∧
      ∀ f ∈ fs, f.data ≠ [] ∧ ∀ c ∈ f.data, c ≠ ',' ∧ c ≠ '"' ∧ c ≠ '\x0d' ∧ c ≠ '\n') →
    csvGo .startRecord [] [] (joinSep [] (recs.map fun fs =>
      joinSep [','] (fs.map String.data) ++ ['\x0d', '\n'])) = recs := by
  induction recs with
  | nil => intro _; rfl
  | cons fs recs ih =>
    intro hgood
    rw [List.map_cons, joinSep_nil_sep, List.append_assoc]
    rw [show (['\x0d', '\n'] : List Char) ++ joinSep [] (recs.map fun fs =>
        joinSep [','] (fs.map String.data) ++ ['\x0d', '\n']) =
      '\x0d' :: '\n' :: joinSep [] (recs.map fun fs =>
        joinSep [','] (fs.map String.data) ++ ['\x0d', '\n']) from rfl]
    rw [csvGo_row fs (hgood fs (by simp)).1 (fun f hf => (hgood fs (by simp)).2 f hf)
      .startRecord (Or.inl rfl) [] _]
    rw [ih (fun x hx => hgood x (by simp [hx]))]
    simp

theorem csvWriteRow_plain (cells : List String) (hne : cells ≠ [""])
    (hplain : ∀ f ∈ cells, csvNeedsQuote f = false) :
    csvWriteRow cells = joinSep [','] (cells.map String.data) ++ ['\x0d', '\n'] := by
  rw [csvWriteRow.eq_def]
  split
  · simp_all
  · congr 2
    apply List.map_congr_left
    intro f hf
    rw [csvWriteField, if_neg (by simp [hplain f hf])]

end FabricRti

namespace FabricRti

theorem csvRowDictLoop_zip (padded : List String) (headers : List String)
    (vals : List String) (i : Nat) (d : List (PyVal × PyVal))
    (hlen : vals.length = headers.length)
    (hval : ∀ pos, padded.getD (i + pos) "" = vals.getD pos "")
    (hnd : headers.Nodup)
    (hacc : ∀ p ∈ d, ∀ h ∈ headers, pyScalarEq p.1 (PyVal.str h) = false) :
    KustoFormatter.csvRowDictLoop padded d i headers =
      d ++ (headers.zip vals).map fun hv =>
        (PyVal.str hv.1, if hv.2 = "" then PyVal.null else PyVal.str hv.2) := by
  induction headers generalizing vals i d with
  | nil => simp [KustoFormatter.csvRowDictLoop]
  | cons h hs ih =>
    obtain ⟨v, vs, rfl⟩ : ∃ v vs, vals = v :: vs := by
      cases vals with
      | nil => simp at hlen
      | cons v vs => exact ⟨v, vs, rfl⟩
    have hv0 : padded.getD i "" = v := by simpa using hval 0
    rw [KustoFormatter.csvRowDictLoop]
    simp only [hv0]
    rw [dictSet_append_of_forall fun p hp => hacc p hp h (by simp)]
    rw [ih vs (i + 1) _ (by simpa using hlen) ?_ (List.nodup_cons.1 hnd).2 ?_]
    · simp only [List.zip_cons_cons, List.map_cons, List.append_assoc,
        List.singleton_append]
    · intro pos
      have := hval (pos + 1)
      rw [show i + (pos + 1) = i + 1 + pos from by omega] at this
      simpa using this
    · intro p hp x hx
      rcases List.mem_append.1 hp with hp | hp
      · exact hacc p hp x (by simp [hx])
      · rw [List.mem_singleton] at hp
        subst hp
        have hne : h ≠ x := by
          intro hc
          rw [hc] at hnd
          exact (List.nodup_cons.1 hnd).1 hx
        simp [pyScalarEq, hne]

theorem csvRowDict_zip (headers vals : List String)
    (hlen : vals.length = headers.length) (hnd : headers.Nodup) :
    KustoFormatter.csvRowDict headers vals =
      (headers.zip vals).map fun hv =>
        (PyVal.str hv.1, if hv.2 = "" then PyVal.null else PyVal.str hv.2) := by
  have h := csvRowDictLoop_zip vals headers vals 0 [] hlen (by simp) hnd (by simp)
  simpa [KustoFormatter.csvRowDict] using h

/-- The CSV round trip for a table of string cells: nonempty names and
values, none containing a character `QUOTE_MINIMAL` quotes on. -/
theorem csv_roundtrip (cols : List String) (rows : List (List String))
    (hcols : cols ≠ []) (hnd : cols.Nodup)
    (hgood : ∀ c ∈ cols, c ≠ "" ∧ csvNeedsQuote c = false)
    (hrows : ∀ r ∈ rows, r.length = cols.length ∧
      ∀ v ∈ r, v ≠ "" ∧ csvNeedsQuote v = false) :
    KustoFormatter.parse (some (KustoFormatter.to_csv
      (some ⟨[⟨cols, rows.map fun r => r.map PyVal.str⟩]⟩))) =
      .ok (.list (rows.map fun r =>
        .dict ((cols.map PyVal.str).zip (r.map PyVal.str)))) := by
  have hto : KustoFormatter.to_csv (some ⟨[⟨cols, rows.map fun r => r.map PyVal.str⟩]⟩) =
      ⟨"csv", .str ⟨csvWriteRow cols ++ joinSep [] (rows.map fun r => csvWriteRow r)⟩⟩ := by
    show KustoResponseFormat.mk "csv" (.str ⟨csvWriteRow cols ++ joinSep []
      ((rows.map fun r => r.map PyVal.str).map fun row =>
        csvWriteRow (row.map KustoFormatter.csvCell))⟩) = _
    rw [show (rows.map fun r => r.map PyVal.str).map (fun row =>
        csvWriteRow (row.map KustoFormatter.csvCell)) = rows.map fun r => csvWriteRow r from by
      rw [List.map_map]
      apply List.map_congr_left
      intro r _
      show csvWriteRow ((r.map PyVal.str).map KustoFormatter.csvCell) = _
      rw [List.map_map]
      exact congrArg csvWriteRow
        ((List.map_congr_left fun v hv => rfl).trans (List.map_id r))]
  have hgoodrec : ∀ fs ∈ (cols :: rows), fs ≠ [] ∧
      ∀ f ∈ fs, f.data ≠ [] ∧ ∀ c ∈ f.data, c ≠ ',' ∧ c ≠ '"' ∧ c ≠ '\x0d' ∧ c ≠ '\n' := by
    intro fs hfs
    rcases List.mem_cons.1 hfs with rfl | hfs'
    · refine ⟨hcols, fun f hf => ⟨?_, csvNeedsQuote_false (hgood f hf).2⟩⟩
      intro h
      exact (hgood f hf).1 (by rw [← string_eta f, h])
    · constructor
      · intro h
        have hlen := (hrows fs hfs').1
        rw [h] at hlen
        simp at hlen
        exact hcols (List.length_eq_zero.1 hlen.symm)
      · intro f hf
        refine ⟨?_, csvNeedsQuote_false ((hrows fs hfs').2 f hf).2⟩
        intro h
        exact ((hrows fs hfs').2 f hf).1 (by rw [← string_eta f, h])
  have hwr : ∀ fs ∈ (cols :: rows), csvWriteRow fs =
      joinSep [','] (fs.map String.data) ++ ['\x0d', '\n'] := by
    intro fs hfs
    rcases List.mem_cons.1 hfs with rfl | hfs'
    · apply csvWriteRow_plain
      · intro h
        exact (hgood "" (by rw [h]; simp)).1 rfl
      · exact fun f hf => (hgood f hf).2
    · apply csvWriteRow_plain
      · intro h
        exact ((hrows fs hfs').2 "" (by rw [h]; simp)).1 rfl
      · exact fun f hf => ((hrows fs hfs').2 f hf).2
  have hpay : csvWriteRow cols ++ joinSep [] (rows.map fun r => csvWriteRow r) =
      joinSep [] ((cols :: rows).map fun fs =>
        joinSep [','] (fs.map String.data) ++ ['\x0d', '\n']) := by
    rw [List.map_cons, joinSep_nil_sep]
    congr 1
    · exact hwr cols (by simp)
    · congr 1
      apply List.map_congr_left
      intro r hr
      exact hwr r (by simp [hr])
  rw [hto, parse_dispatch_csv, KustoFormatter._parse_csv, hpay]
  rw [if_neg (show ¬ ((⟨joinSep [] ((cols :: rows).map fun fs =>
      joinSep [','] (fs.map String.data) ++ ['\x0d', '\n'])⟩ : String) = "") from by
    intro h
    have hd := congrArg String.data h
    rw [List.map_cons, joinSep_nil_sep] at hd
    simp at hd)]
  rw [if_neg (splitChar_length_not_lt_one '\n' _)]
  rw [show (⟨joinSep [] ((cols :: rows).map fun fs =>
      joinSep [','] (fs.map String.data) ++ ['\x0d', '\n'])⟩ : String).data =
    joinSep [] ((cols :: rows).map fun fs =>
      joinSep [','] (fs.map String.data) ++ ['\x0d', '\n']) from rfl]
  rw [show csvReader (joinSep [] ((cols :: rows).map fun fs =>
      joinSep [','] (fs.map String.data) ++ ['\x0d', '\n'])) =
    csvGo .startRecord [] [] (joinSep [] ((cols :: rows).map fun fs =>
      joinSep [','] (fs.map String.data) ++ ['\x0d', '\n'])) from rfl]
  rw [csvGo_rows (cols :: rows) hgoodrec]
  show (Except.ok (PyVal.list (rows.map fun row =>
      PyVal.dict (KustoFormatter.csvRowDict cols
        (row ++ List.replicate (cols.length - row.length) "")))) : Except PyErr PyVal) = _
  congr 2
  apply List.map_congr_left
  intro r hr
  rw [show cols.length - r.length = 0 from by rw [(hrows r hr).1]; omega,
      List.replicate_zero, List.append_nil]
  rw [csvRowDict_zip cols r (hrows r hr).1 hnd]
  congr 1
  rw [show (cols.map PyVal.str).zip (r.map PyVal.str) =
    (cols.zip r).map (Prod.map PyVal.str PyVal.str) from (List.zip_map _ _ _ _)]
  apply List.map_congr_left
  intro p hp
  have hvne : p.2 ≠ "" := ((hrows r hr).2 p.2 (List.of_mem_zip hp).2).1
  rw [if_neg hvne]
  rfl

end FabricRti

namespace FabricRti

/-! ## C1: columnar round trip -/

theorem colEntriesFrom_map_fst (rows : List (List PyVal)) :
    ∀ (cols : List String) (i : Nat), (colEntriesFrom rows i cols).map Prod.fst = cols := by
  intro cols
  induction cols with
  | nil => intro i; rfl
  | cons c cs ih => intro i; rw [colEntriesFrom, List.map_cons, ih (i + 1)]

theorem colEntriesFrom_nil_rows :
    ∀ (cols : List String) (i : Nat), colEntriesFrom [] i cols = cols.map fun c => (c, []) := by
  intro cols
  induction cols with
  | nil => intro i; rfl
  | cons c cs ih => intro i; rw [colEntriesFrom, List.map_cons, ih (i + 1)]; rfl

theorem dictAppendAt_found (done : List (String × List PyVal))
    (e : String × List PyVal) (todo : List (String × List PyVal)) (v : PyVal)
    (hdone : ∀ x ∈ done, x.1 ≠ e.1) :
    dictAppendAt ((done ++ e :: todo).map fun x => (PyVal.str x.1, PyVal.list x.2))
      (PyVal.str e.1) v =
      ((done ++ (e.1, e.2 ++ [v]) :: todo).map fun x => (PyVal.str x.1, PyVal.list x.2)) := by
  induction done with
  | nil =>
    simp only [List.nil_append, List.map_cons]
    rw [dictAppendAt, if_pos (by simp [pyScalarEq])]
  | cons x xs ih =>
    simp only [List.cons_append, List.map_cons]
    rw [dictAppendAt, if_neg (by simp [pyScalarEq]; exact hdone x (by simp)),
        ih (fun y hy => hdone y (by simp [hy]))]

theorem columnarAppendRow_colEntries (row : List PyVal) (R : List (List PyVal)) :
    ∀ (cols' : List String) (done : List (String × List PyVal)) (i : Nat),
    i = done.length → (∀ x ∈ done, ∀ c ∈ cols', x.1 ≠ c) → cols'.Nodup →
    columnarAppendRow row ((done ++ colEntriesFrom R i cols').map
        fun x => (PyVal.str x.1, PyVal.list x.2)) i cols' =
      ((done ++ colEntriesFrom (R ++ [row]) i cols').map
        fun x => (PyVal.str x.1, PyVal.list x.2)) := by
  intro cols'
  induction cols' with
  | nil => intro done i _ _ _; rfl
  | cons c cs ih =>
    intro done i hi hdis hnd
    rw [colEntriesFrom, columnarAppendRow]
    rw [show done ++ (c, R.map fun r => r.getD i PyVal.null) ::
        colEntriesFrom R (i + 1) cs =
      done ++ ((c, R.map fun r => r.getD i PyVal.null) ::
        colEntriesFrom R (i + 1) cs) from rfl]
    rw [dictAppendAt_found done (c, R.map fun r => r.getD i PyVal.null)
      (colEntriesFrom R (i + 1) cs) (row.getD i PyVal.null)
      (fun x hx => hdis x hx c (by simp))]
    rw [show done ++ (c, (R.map fun r => r.getD i PyVal.null) ++
        [row.getD i PyVal.null]) :: colEntriesFrom R (i + 1) cs =
      (done ++ [(c, (R.map fun r => r.getD i PyVal.null) ++
        [row.getD i PyVal.null])]) ++ colEntriesFrom R (i + 1) cs from by simp]
    rw [ih (done ++ [(c, (R.map fun r => r.getD i PyVal.null) ++
        [row.getD i PyVal.null])]) (i + 1) (by simp [hi]) ?_ (List.nodup_cons.1 hnd).2]
    · rw [colEntriesFrom]
      rw [show (R ++ [row]).map (fun r => r.getD i PyVal.null) =
        (R.map fun r => r.getD i PyVal.null) ++ [row.getD i PyVal.null] from by
          rw [List.map_append]; rfl]
      simp
    · intro x hx d hd
      rcases List.mem_append.1 hx with hx' | hx'
      · exact hdis x hx' d (by simp [hd])
      · have : x = (c, (R.map fun r => r.getD i PyVal.null) ++ [row.getD i PyVal.null]) := by
          simpa using hx'
        subst this
        intro hc
        have hc2 : c = d := hc
        rw [hc2] at hnd
        exact (List.nodup_cons.1 hnd).1 hd

theorem to_columnar_fold (cols : List String) (hnd : cols.Nodup) (rows : List (List PyVal)) :
    ∀ R, rows.foldl (fun d row => columnarAppendRow row d 0 cols)
      ((colEntriesFrom R 0 cols).map fun x => (PyVal.str x.1, PyVal.list x.2)) =
      (colEntriesFrom (R ++ rows) 0 cols).map fun x => (PyVal.str x.1, PyVal.list x.2) := by
  induction rows with
  | nil => intro R; simp
  | cons row rows ih =>
    intro R
    rw [List.foldl_cons]
    rw [show ((colEntriesFrom R 0 cols).map fun x : String × List PyVal =>
        (PyVal.str x.1, PyVal.list x.2)) =
      (([] ++ colEntriesFrom R 0 cols).map fun x : String × List PyVal =>
        (PyVal.str x.1, PyVal.list x.2)) from by simp]
    rw [columnarAppendRow_colEntries row R cols [] 0 rfl (by simp) hnd]
    simp only [List.nil_append]
    rw [ih (R ++ [row])]
    simp

theorem to_columnar_init (cols : List String) : cols.Nodup →
    ∀ acc : List (PyVal × PyVal),
    (∀ p ∈ acc, ∀ c ∈ cols, pyScalarEq p.1 (PyVal.str c) = false) →
    cols.foldl (fun d c => dictSet d (.str c) (.list [])) acc =
      acc ++ cols.map fun c => (PyVal.str c, PyVal.list []) := by
  induction cols with
  | nil => intro _ acc _; simp
  | cons c cs ih =>
    intro hnd acc hacc
    rw [List.foldl_cons, dictSet_append_of_forall (fun p hp => hacc p hp c (by simp)),
        ih (List.nodup_cons.1 hnd).2 (acc ++ [(PyVal.str c, PyVal.list [])]) ?_]
    · simp
    · intro p hp x hx
      rcases List.mem_append.1 hp with hp' | hp'
      · exact hacc p hp' x (by simp [hx])
      · have : p = (PyVal.str c, PyVal.list []) := by simpa using hp'
        subst this
        have hne : c ≠ x := by
          intro hc
          rw [hc] at hnd
          exact (List.nodup_cons.1 hnd).1 hx
        simp [pyScalarEq, hne]

end FabricRti

namespace FabricRti

/-- What `_parse_columnar` returns on any dict of string column names
and list values with distinct names (shared shape lemma). -/
theorem parse_columnar_entries (entries : List (String × List PyVal))
    (hnd : (entries.map Prod.fst).Nodup) :
    KustoFormatter._parse_columnar
      (.dict (entries.map fun e => (PyVal.str e.1, PyVal.list e.2))) =
      .ok (.list ((List.range ((entries.headD ("", [])).2.length)).map fun i =>
        .dict (entries.map fun e => (PyVal.str e.1, e.2.getD i PyVal.null)))) := by
  cases entries with
  | nil => rfl
  | cons e0 rest =>
    have h1 : dictGet ((e0 :: rest).map fun e => (PyVal.str e.1, PyVal.list e.2))
        (PyVal.str e0.1) (.list []) = .list e0.2 := dictGet_map_str hnd (by simp)
    have hrow : ∀ i, KustoFormatter.columnarRow
        ((e0 :: rest).map fun e => (PyVal.str e.1, PyVal.list e.2))
        (((e0 :: rest).map fun e => (PyVal.str e.1, PyVal.list e.2)).map (fun x => x.1)) i =
        .ok ((e0 :: rest).map fun e => (PyVal.str e.1, e.2.getD i PyVal.null)) := by
      intro i
      rw [KustoFormatter.columnarRow]
      have hmapfst :
          (((e0 :: rest).map fun e => (PyVal.str e.1, PyVal.list e.2)).map (fun x => x.1)) =
            (e0 :: rest).map fun e => PyVal.str e.1 := by
        simp
      rw [hmapfst]
      exact columnarRow_foldlM _ i (e0 :: rest) []
        (fun x hx => dictGet_map_str hnd hx) hnd (by simp)
    rw [List.map_cons] at h1 hrow ⊢
    rw [parse_columnar_cons, h1]
    rw [show KustoFormatter.pySeqLen (PyVal.list e0.2) = Except.ok e0.2.length from rfl,
      except_ok_bind]
    rw [mapM_ok _ (fun i => PyVal.dict ((PyVal.str e0.1, e0.2.getD i PyVal.null) ::
        rest.map fun e => (PyVal.str e.1, e.2.getD i PyVal.null))) _ ?_]
    · rw [except_ok_bind]
      simp
    · intro i _
      show (do
        let d ← KustoFormatter.columnarRow _ _ i
        (pure (PyVal.dict d) : Except PyErr PyVal)) = _
      rw [hrow i, except_ok_bind]
      simp
      rfl

theorem colEntriesFrom_proj (vrows : List (List PyVal)) (idx : Nat) (vr : List PyVal)
    (hidx : idx < vrows.length) (hvr : vrows[idx] = vr) :
    ∀ (cols' : List String) (i : Nat), i + cols'.length ≤ vr.length →
    (colEntriesFrom vrows i cols').map (fun e => (PyVal.str e.1, e.2.getD idx PyVal.null)) =
      (cols'.map PyVal.str).zip (vr.drop i) := by
  intro cols'
  induction cols' with
  | nil => intro i _; simp [colEntriesFrom]
  | cons c cs ih =>
    intro i hlen
    have hi : i < vr.length := by
      simp at hlen
      omega
    rw [colEntriesFrom, List.map_cons, List.map_cons,
        List.drop_eq_getElem_cons hi, List.zip_cons_cons]
    congr 1
    · congr 1
      rw [List.getD_eq_getElem?_getD, List.getElem?_map, List.getElem?_eq_getElem hidx,
          hvr]
      rw [show Option.map (fun r => r.getD i PyVal.null) (some vr) =
        some (vr.getD i PyVal.null) from rfl]
      rw [show (some (vr.getD i PyVal.null)).getD PyVal.null = vr.getD i PyVal.null from rfl]
      exact List.getD_eq_getElem vr PyVal.null hi
    · rw [ih (i + 1) (by simp at hlen ⊢; omega)]

/-- The columnar round trip for a single-table result with distinct
column names and full-length rows. -/
theorem columnar_roundtrip (cols : List String) (rows : List (List PyVal))
    (hcols : cols ≠ []) (hnd : cols.Nodup)
    (hrows : ∀ r ∈ rows, r.length = cols.length) :
    KustoFormatter.parse (some (KustoFormatter.to_columnar
      (some ⟨[⟨cols, rows⟩]⟩))) =
      .ok (.list (rows.map fun r => .dict ((cols.map PyVal.str).zip r))) := by
  have hinit : cols.foldl (fun d c => dictSet d (.str c) (.list [])) [] =
      (colEntriesFrom [] 0 cols).map fun x : String × List PyVal =>
        (PyVal.str x.1, PyVal.list x.2) := by
    rw [to_columnar_init cols hnd [] (by simp), List.nil_append, colEntriesFrom_nil_rows,
        List.map_map]
    rfl
  have hto : KustoFormatter.to_columnar (some ⟨[⟨cols, rows⟩]⟩) =
      ⟨"columnar", .dict ((colEntriesFrom rows 0 cols).map fun x : String × List PyVal =>
        (PyVal.str x.1, PyVal.list x.2))⟩ := by
    show KustoResponseFormat.mk "columnar" (.dict (rows.foldl
      (fun d row => columnarAppendRow row d 0 cols)
      (cols.foldl (fun d c => dictSet d (.str c) (.list [])) []))) = _
    rw [hinit, to_columnar_fold cols hnd rows []]
    rw [List.nil_append]
  rw [hto]
  rw [show KustoFormatter.parse (some ⟨"columnar",
      .dict ((colEntriesFrom rows 0 cols).map fun x : String × List PyVal =>
        (PyVal.str x.1, PyVal.list x.2))⟩) =
    KustoFormatter._parse_columnar
      (.dict ((colEntriesFrom rows 0 cols).map fun x : String × List PyVal =>
        (PyVal.str x.1, PyVal.list x.2))) from rfl]
  rw [parse_columnar_entries (colEntriesFrom rows 0 cols)
    (by rw [colEntriesFrom_map_fst]; exact hnd)]
  congr 1
  congr 1
  have hhead : ((colEntriesFrom rows 0 cols).headD ("", [])).2.length = rows.length := by
    cases cols with
    | nil => exact absurd rfl hcols
    | cons c cs => simp [colEntriesFrom]
  rw [hhead]
  apply List.ext_getElem (by simp)
  intro k hk1 hk2
  rw [List.getElem_map, List.getElem_range, List.getElem_map]
  have hkr : k < rows.length := by simpa using hk1
  rw [colEntriesFrom_proj rows k (rows[k]) hkr rfl cols 0
    (by rw [hrows rows[k] (List.getElem_mem hkr)]; simp)]
  rw [List.drop_zero]

end FabricRti

namespace FabricRti

/-! ## C1: header_arrays round trip -/

theorem jsonPlainChar_spec {c : Char} (h : jsonPlainChar c = true) :
    0x20 ≤ c.toNat ∧ c.toNat ≤ 0x7e ∧ c ≠ '"' ∧ c ≠ '\\' := by
  rw [jsonPlainChar] at h
  simp at h
  exact ⟨h.1.1.1, h.1.1.2, h.1.2, h.2⟩

theorem jEscapeChar_plain {c : Char} (h : jsonPlainChar c = true) : jEscapeChar c = [c] := by
  obtain ⟨h1, h2, h3, h4⟩ := jsonPlainChar_spec h
  rw [jEscapeChar, if_neg h3, if_neg h4,
      if_neg (fun hc => by subst hc; exact absurd h1 (by decide)),
      if_neg (fun hc => by subst hc; exact absurd h1 (by decide)),
      if_neg (fun hc => by subst hc; exact absurd h1 (by decide)),
      if_neg (fun hc => by subst hc; exact absurd h1 (by decide)),
      if_neg (fun hc => by subst hc; exact absurd h1 (by decide)),
      if_neg (fun hor => by rcases hor with h | h <;> omega)]

theorem jEscape_foldr_plain (s : List Char) (h : ∀ c ∈ s, jsonPlainChar c = true) :
    (s.map jEscapeChar).foldr (· ++ ·) [] = s := by
  induction s with
  | nil => rfl
  | cons c cs ih =>
    rw [List.map_cons, List.foldr_cons, jEscapeChar_plain (h c (by simp)),
        ih (fun d hd => h d (by simp [hd]))]
    rfl

theorem jQuote_plain {s : List Char} (h : ∀ c ∈ s, jsonPlainChar c = true) :
    jQuote s = '"' :: (s ++ ['"']) := by
  rw [jQuote, jEscape_foldr_plain s h]
  simp

theorem pjStrBody_plain (s : List Char) (h : ∀ c ∈ s, jsonPlainChar c = true)
    (rest : List Char) :
    pjStrBody (s ++ '"' :: rest) = some (s, rest) := by
  induction s with
  | nil => rfl
  | cons c cs ih =>
    obtain ⟨h1, h2, h3, h4⟩ := jsonPlainChar_spec (h c (by simp))
    rw [List.cons_append, pjStrBody.eq_def]
    split
    · simp_all
    · rename_i heq
      rw [List.cons.injEq] at heq
      exact absurd heq.1 h3
    · rename_i heq
      rw [List.cons.injEq] at heq
      exact absurd heq.1 h4
    · rename_i g1 g2 heq
      rw [List.cons.injEq] at heq
      obtain ⟨heq1, heq2⟩ := heq
      rw [← heq1, ← heq2, if_neg (by omega), ih (fun d hd => h d (by simp [hd]))]
      rfl

end FabricRti

namespace FabricRti

theorem pjVal_string (fuel : Nat) (s : String)
    (hp : ∀ c ∈ s.data, jsonPlainChar c = true) (rest : List Char) :
    pjVal (fuel + 1) ('"' :: (s.data ++ '"' :: rest)) = some (.str s, rest) := by
  show (match pjStrBody (s.data ++ '"' :: rest) with
    | some (sb, r) => some (PyVal.str ⟨sb⟩, r)
    | none => none) = some (.str s, rest)
  rw [pjStrBody_plain s.data hp rest]

theorem jdumpsItems_strings_head (vs : List String) (hne : vs ≠ []) :
    ∃ t, jdumpsItems (vs.map PyVal.str) = '"' :: t := by
  cases vs with
  | nil => exact absurd rfl hne
  | cons v vs =>
    cases vs with
    | nil =>
      refine ⟨(v.data.map jEscapeChar).foldr (· ++ ·) [] ++ ['"'], ?_⟩
      rw [List.map_cons, List.map_nil, jdumpsItems, jdumpsVal, jQuote]
      simp
    | cons v2 vs2 =>
      refine ⟨(v.data.map jEscapeChar).foldr (· ++ ·) [] ++ ['"'] ++
        ',' :: jdumpsItems ((v2 :: vs2).map PyVal.str), ?_⟩
      rw [List.map_cons, List.map_cons, jdumpsItems, jdumpsVal, jQuote] <;> simp

theorem jSkipWs_quote (t : List Char) : jSkipWs ('"' :: t) = '"' :: t := rfl

theorem jSkipWs_rbracket (t : List Char) : jSkipWs (']' :: t) = ']' :: t := rfl

theorem jSkipWs_comma (t : List Char) : jSkipWs (',' :: t) = ',' :: t := rfl

theorem pjArrItems_strings (vs : List String) :
    (∀ v ∈ vs, ∀ c ∈ v.data, jsonPlainChar c = true) → vs ≠ [] →
    ∀ (fuel : Nat), vs.length + 1 ≤ fuel → ∀ rest,
    pjArrItems fuel (jdumpsItems (vs.map PyVal.str) ++ ']' :: rest) =
      some (vs.map PyVal.str, rest) := by
  induction vs with
  | nil => intro _ hne; exact absurd rfl hne
  | cons v vs ih =>
    intro hp _ fuel hfuel rest
    obtain ⟨f, rfl⟩ : ∃ f, fuel = f + 1 := ⟨fuel - 1, by omega⟩
    obtain ⟨g, rfl⟩ : ∃ g, f = g + 1 := ⟨f - 1, by simp at hfuel; omega⟩
    cases vs with
    | nil =>
      rw [show jdumpsItems ([v].map PyVal.str) ++ ']' :: rest =
          '"' :: (v.data ++ '"' :: (']' :: rest)) from by
        show jQuote v.data ++ ']' :: rest = _
        rw [jQuote_plain (fun c hc => hp v (by simp) c hc)]
        simp]
      show (match pjVal (g + 1) ('"' :: (v.data ++ '"' :: (']' :: rest))) with
        | none => none
        | some (v, r) =>
          match jSkipWs r with
          | ',' :: r2 =>
            match pjArrItems (g + 1) (jSkipWs r2) with
            | some (vs, r3) => some (v :: vs, r3)
            | none => none
          | ']' :: r2 => some ([v], r2)
          | _ => none) = some ([v].map PyVal.str, rest)
      rw [pjVal_string g v (fun c hc => hp v (by simp) c hc) (']' :: rest)]
      rfl
    | cons v2 vs2 =>
      rw [show jdumpsItems ((v :: v2 :: vs2).map PyVal.str) ++ ']' :: rest =
          '"' :: (v.data ++ '"' :: (',' :: (jdumpsItems ((v2 :: vs2).map PyVal.str) ++
            ']' :: rest))) from by
        show (jQuote v.data ++ ',' :: jdumpsItems ((v2 :: vs2).map PyVal.str)) ++
          ']' :: rest = _
        rw [jQuote_plain (fun c hc => hp v (by simp) c hc)]
        simp]
      show (match pjVal (g + 1) ('"' :: (v.data ++ '"' :: (',' ::
          (jdumpsItems ((v2 :: vs2).map PyVal.str) ++ ']' :: rest)))) with
        | none => none
        | some (v, r) =>
          match jSkipWs r with
          | ',' :: r2 =>
            match pjArrItems (g + 1) (jSkipWs r2) with
            | some (vs, r3) => some (v :: vs, r3)
            | none => none
          | ']' :: r2 => some ([v], r2)
          | _ => none) = some ((v :: v2 :: vs2).map PyVal.str, rest)
      rw [pjVal_string g v (fun c hc => hp v (by simp) c hc)]
      show (match jSkipWs (',' :: (jdumpsItems ((v2 :: vs2).map PyVal.str) ++
          ']' :: rest)) with
        | ',' :: r2 =>
          match pjArrItems (g + 1) (jSkipWs r2) with
          | some (vs, r3) => some (PyVal.str v :: vs, r3)
          | none => none
        | ']' :: r2 => some ([PyVal.str v], r2)
        | _ => none) = some ((v :: v2 :: vs2).map PyVal.str, rest)
      rw [jSkipWs_comma]
      obtain ⟨t, ht⟩ := jdumpsItems_strings_head (v2 :: vs2) (by simp)
      show (match pjArrItems (g + 1) (jSkipWs (jdumpsItems ((v2 :: vs2).map PyVal.str) ++
          ']' :: rest)) with
        | some (vs, r3) => some (PyVal.str v :: vs, r3)
        | none => none) = some ((v :: v2 :: vs2).map PyVal.str, rest)
      rw [show jSkipWs (jdumpsItems ((v2 :: vs2).map PyVal.str) ++ ']' :: rest) =
          jdumpsItems ((v2 :: vs2).map PyVal.str) ++ ']' :: rest from by
        rw [ht, List.cons_append, jSkipWs_quote]]
      rw [ih (fun x hx c hc => hp x (by simp [hx]) c hc) (by simp) (g + 1)
        (by simp at hfuel ⊢; omega) rest]
      rfl

end FabricRti

namespace FabricRti

theorem jSkipWs_lbracket (t : List Char) : jSkipWs ('[' :: t) = '[' :: t := rfl

theorem jdumpsItems_length_ge (vs : List String) :
    vs.length ≤ (jdumpsItems (vs.map PyVal.str)).length := by
  induction vs with
  | nil => simp
  | cons v vs ih =>
    cases vs with
    | nil =>
      rw [List.map_cons, List.map_nil, jdumpsItems, jdumpsVal, jQuote]
      simp
    | cons v2 vs2 =>
      rw [List.map_cons, List.map_cons, jdumpsItems, jdumpsVal, jQuote]
      · simp at ih ⊢
        omega
      · simp

theorem pjVal_list_strings (vs : List String)
    (hp : ∀ v ∈ vs, ∀ c ∈ v.data, jsonPlainChar c = true) (hne : vs ≠ [])
    (fuel : Nat) (hfuel : vs.length + 2 ≤ fuel) (rest : List Char) :
    pjVal fuel ('[' :: (jdumpsItems (vs.map PyVal.str) ++ ']' :: rest)) =
      some (.list (vs.map PyVal.str), rest) := by
  obtain ⟨f, rfl⟩ : ∃ f, fuel = f + 1 := ⟨fuel - 1, by omega⟩
  obtain ⟨t, ht⟩ := jdumpsItems_strings_head vs hne
  show (match jSkipWs (jdumpsItems (vs.map PyVal.str) ++ ']' :: rest) with
    | ']' :: r => some (PyVal.list [], r)
    | r =>
      match pjArrItems f r with
      | some (vs2, r2) => some (PyVal.list vs2, r2)
      | none => none) = some (.list (vs.map PyVal.str), rest)
  rw [show jdumpsItems (vs.map PyVal.str) ++ ']' :: rest = '"' :: (t ++ ']' :: rest) from by
    rw [ht]; simp]
  rw [jSkipWs_quote]
  show (match pjArrItems f ('"' :: (t ++ ']' :: rest)) with
    | some (vs2, r2) => some (PyVal.list vs2, r2)
    | none => none) = some (.list (vs.map PyVal.str), rest)
  rw [show ('"' : Char) :: (t ++ ']' :: rest) =
      jdumpsItems (vs.map PyVal.str) ++ ']' :: rest from by rw [ht]; simp]
  rw [pjArrItems_strings vs hp hne f (by omega) rest]

theorem jloads_row (vs : List String)
    (hp : ∀ v ∈ vs, ∀ c ∈ v.data, jsonPlainChar c = true) (hne : vs ≠ []) :
    jloads ⟨jdumpsVal (.list (vs.map PyVal.str))⟩ = some (.list (vs.map PyVal.str)) := by
  have hd : (⟨jdumpsVal (.list (vs.map PyVal.str))⟩ : String).data =
      '[' :: (jdumpsItems (vs.map PyVal.str) ++ ']' :: []) := by
    show jdumpsVal (.list (vs.map PyVal.str)) = _
    rw [jdumpsVal]
    simp
  rw [jloads, hd, jSkipWs_lbracket]
  rw [pjVal_list_strings vs hp hne _ ?_ []]
  · rfl
  · have := jdumpsItems_length_ge vs
    simp
    omega

end FabricRti

namespace FabricRti

theorem mem_jdumpsItems_strings (vs : List String)
    (hp : ∀ v ∈ vs, ∀ c ∈ v.data, jsonPlainChar c = true) :
    ∀ ch ∈ jdumpsItems (vs.map PyVal.str),
      ch = '"' ∨ ch = ',' ∨ (0x20 ≤ ch.toNat ∧ ch.toNat ≤ 0x7e) := by
  induction vs with
  | nil =>
    intro ch hch
    rw [List.map_nil, jdumpsItems] at hch
    cases hch
  | cons v vs ih =>
    cases vs with
    | nil =>
      intro ch hch
      rw [List.map_cons, List.map_nil, jdumpsItems, jdumpsVal,
          jQuote_plain (fun c hc => hp v (by simp) c hc)] at hch
      rcases List.mem_cons.1 hch with rfl | hch2
      · exact Or.inl rfl
      rcases List.mem_append.1 hch2 with h | h
      · exact Or.inr (Or.inr ⟨(jsonPlainChar_spec (hp v (by simp) ch h)).1,
          (jsonPlainChar_spec (hp v (by simp) ch h)).2.1⟩)
      · exact Or.inl (by simpa using h)
    | cons v2 vs2 =>
      intro ch hch
      rw [List.map_cons, List.map_cons, jdumpsItems, jdumpsVal,
          jQuote_plain (fun c hc => hp v (by simp) c hc)] at hch
      · rcases List.mem_append.1 hch with h | h
        · rcases List.mem_cons.1 h with rfl | h2
          · exact Or.inl rfl
          rcases List.mem_append.1 h2 with h3 | h3
          · exact Or.inr (Or.inr ⟨(jsonPlainChar_spec (hp v (by simp) ch h3)).1,
              (jsonPlainChar_spec (hp v (by simp) ch h3)).2.1⟩)
          · exact Or.inl (by simpa using h3)
        · rcases List.mem_cons.1 h with rfl | h2
          · exact Or.inr (Or.inl rfl)
          · exact ih (fun x hx c hc => hp x (by simp [hx]) c hc) ch (by simpa using h2)
      · simp

theorem notMem_nl_jdumps_row (vs : List String)
    (hp : ∀ v ∈ vs, ∀ c ∈ v.data, jsonPlainChar c = true) :
    ('\n' : Char) ∉ jdumpsVal (.list (vs.map PyVal.str)) := by
  intro hmem
  rw [jdumpsVal] at hmem
  rcases List.mem_cons.1 hmem with h | h
  · exact absurd h (by decide)
  rcases List.mem_append.1 h with h | h
  · rcases mem_jdumpsItems_strings vs hp '\n' h with h | h | h
    · exact absurd h (by decide)
    · exact absurd h (by decide)
    · exact absurd h.1 (by decide)
  · exact absurd (List.mem_singleton.1 h) (by decide)

theorem jdumps_row_ne_nil (vs : List String) :
    jdumpsVal (.list (vs.map PyVal.str)) ≠ [] := by
  rw [jdumpsVal]
  simp

theorem jdumps_row_head (vs : List String) :
    (jdumpsVal (.list (vs.map PyVal.str))).head? = some '[' := by
  rw [jdumpsVal]
  rfl

theorem jdumps_row_getLast (vs : List String) :
    (jdumpsVal (.list (vs.map PyVal.str))).getLast? = some ']' := by
  rw [jdumpsVal, List.getLast?_concat]

theorem haRowPureLoop_zip (row_values : List PyVal) (headers : List PyVal)
    (vals : List PyVal) (i : Nat) (d : List (PyVal × PyVal))
    (hlen : vals.length = headers.length)
    (hval : ∀ pos, row_values.getD (i + pos) PyVal.null = vals.getD pos PyVal.null)
    (hnd : headers.Pairwise fun a b => pyScalarEq a b = false)
    (hacc : ∀ p ∈ d, ∀ h ∈ headers, pyScalarEq p.1 h = false) :
    haRowPureLoop row_values d i headers = d ++ headers.zip vals := by
  induction headers generalizing vals i d with
  | nil => simp [haRowPureLoop]
  | cons h hs ih =>
    obtain ⟨v, vs, rfl⟩ : ∃ v vs, vals = v :: vs := by
      cases vals with
      | nil => simp at hlen
      | cons v vs => exact ⟨v, vs, rfl⟩
    have hv0 : row_values.getD i PyVal.null = v := by simpa using hval 0
    rw [haRowPureLoop, hv0,
        dictSet_append_of_forall fun p hp => hacc p hp h (by simp)]
    rw [ih vs (i + 1) _ (by simpa using hlen) ?_ (List.pairwise_cons.1 hnd).2 ?_]
    · simp [List.zip_cons_cons]
    · intro pos
      have := hval (pos + 1)
      rw [show i + (pos + 1) = i + 1 + pos from by omega] at this
      simpa using this
    · intro p hp x hx
      rcases List.mem_append.1 hp with hp | hp
      · exact hacc p hp x (by simp [hx])
      · rw [List.mem_singleton] at hp
        subst hp
        exact (List.pairwise_cons.1 hnd).1 x hx

theorem map_str_pairwise (cols : List String) (hnd : cols.Nodup) :
    (cols.map PyVal.str).Pairwise fun a b => pyScalarEq a b = false := by
  apply List.Pairwise.map PyVal.str (fun a b hab => ?_) hnd
  simp [pyScalarEq]
  exact hab

theorem haRowPure_zip (cols : List String) (vals : List PyVal)
    (hlen : vals.length = cols.length) (hnd : cols.Nodup) :
    haRowPure (cols.map PyVal.str) vals = (cols.map PyVal.str).zip vals := by
  have h := haRowPureLoop_zip vals (cols.map PyVal.str) vals 0 []
    (by rw [List.length_map]; exact hlen) (by simp) (map_str_pairwise cols hnd) (by simp)
  simpa [haRowPure] using h

theorem parse_dispatch_header_arrays (s : String) :
    KustoFormatter.parse (some ⟨"header_arrays", .str s⟩) =
      KustoFormatter._parse_header_arrays (.str s) := rfl

end FabricRti

namespace FabricRti

theorem filterMap_all_some {α β : Type} (f : α → Option β) (g : α → β) (l : List α)
    (h : ∀ a ∈ l, f a = some (g a)) : l.filterMap f = l.map g := by
  induction l with
  | nil => rfl
  | cons a l ih =>
    rw [List.filterMap_cons, h a (by simp), List.map_cons,
        ih (fun x hx => h x (by simp [hx]))]

/-- The header_arrays round trip for a table of string cells whose
names and values consist of plain printable ASCII (no quote, no
backslash). -/
theorem header_arrays_roundtrip (cols : List String) (rows : List (List String))
    (hcols : cols ≠ []) (hnd : cols.Nodup)
    (hpc : ∀ c ∈ cols, ∀ ch ∈ c.data, jsonPlainChar ch = true)
    (hrows : ∀ r ∈ rows, r.length = cols.length ∧
      ∀ v ∈ r, ∀ ch ∈ v.data, jsonPlainChar ch = true) :
    KustoFormatter.parse (some (KustoFormatter.to_header_arrays
      (some ⟨[⟨cols, rows.map fun r => r.map PyVal.str⟩]⟩))) =
      .ok (.list (rows.map fun r =>
        .dict ((cols.map PyVal.str).zip (r.map PyVal.str)))) := by
  have hrne : ∀ r ∈ rows, r ≠ [] := by
    intro r hr hcon
    have hlen := (hrows r hr).1
    rw [hcon] at hlen
    simp at hlen
    exact hcols (List.length_eq_zero.1 hlen.symm)
  have hto : KustoFormatter.to_header_arrays
      (some ⟨[⟨cols, rows.map fun r => r.map PyVal.str⟩]⟩) =
      ⟨"header_arrays", .str ⟨joinSep ['\n']
        (jdumpsVal (.list (cols.map PyVal.str)) ::
          rows.map fun r => jdumpsVal (.list (r.map PyVal.str)))⟩⟩ := by
    show KustoResponseFormat.mk "header_arrays" (.str ⟨joinSep ['\n']
      (jdumpsVal (.list (cols.map PyVal.str)) ::
        (rows.map fun r => r.map PyVal.str).map fun row => jdumpsVal (.list row))⟩) = _
    rw [List.map_map]
    rfl
  have hLne : ∀ l ∈ (jdumpsVal (.list (cols.map PyVal.str)) ::
      rows.map fun r => jdumpsVal (.list (r.map PyVal.str))), l ≠ [] := by
    intro l hl
    rcases List.mem_cons.1 hl with rfl | hl'
    · exact jdumps_row_ne_nil cols
    · obtain ⟨r, _, rfl⟩ := List.mem_map.1 hl'
      exact jdumps_row_ne_nil r
  have hPne : joinSep ['\n'] (jdumpsVal (.list (cols.map PyVal.str)) ::
      rows.map fun r => jdumpsVal (.list (r.map PyVal.str))) ≠ [] :=
    joinSep_cons_ne_nil _ (jdumps_row_ne_nil cols)
  have hstrip : pyStripList (joinSep ['\n'] (jdumpsVal (.list (cols.map PyVal.str)) ::
      rows.map fun r => jdumpsVal (.list (r.map PyVal.str)))) =
      joinSep ['\n'] (jdumpsVal (.list (cols.map PyVal.str)) ::
        rows.map fun r => jdumpsVal (.list (r.map PyVal.str))) := by
    apply pyStripList_id hPne
    · intro c hc
      rw [joinSep_head? _ (jdumps_row_head cols)] at hc
      rw [Option.some.injEq] at hc
      subst hc
      decide
    · apply joinSep_getLast_safe (by simp) hLne
      intro q hq c hc
      rcases List.mem_cons.1 hq with rfl | hq'
      · rw [jdumps_row_getLast cols, Option.some.injEq] at hc
        subst hc
        decide
      · obtain ⟨r, _, rfl⟩ := List.mem_map.1 hq'
        rw [jdumps_row_getLast r, Option.some.injEq] at hc
        subst hc
        decide
  have hsplit : splitChar '\n' (joinSep ['\n'] (jdumpsVal (.list (cols.map PyVal.str)) ::
      rows.map fun r => jdumpsVal (.list (r.map PyVal.str)))) =
      jdumpsVal (.list (cols.map PyVal.str)) ::
        rows.map fun r => jdumpsVal (.list (r.map PyVal.str)) := by
    apply splitChar_joinSep (by simp)
    intro p hp
    rcases List.mem_cons.1 hp with rfl | hp'
    · exact notMem_nl_jdumps_row cols hpc
    · obtain ⟨r, hr, rfl⟩ := List.mem_map.1 hp'
      exact notMem_nl_jdumps_row r (hrows r hr).2
  rw [hto, parse_dispatch_header_arrays, KustoFormatter._parse_header_arrays]
  rw [show (⟨joinSep ['\n'] (jdumpsVal (.list (cols.map PyVal.str)) ::
      rows.map fun r => jdumpsVal (.list (r.map PyVal.str)))⟩ : String).data =
    joinSep ['\n'] (jdumpsVal (.list (cols.map PyVal.str)) ::
      rows.map fun r => jdumpsVal (.list (r.map PyVal.str))) from rfl]
  rw [hstrip, hsplit, List.map_cons]
  show (match jloads (⟨jdumpsVal (.list (cols.map PyVal.str))⟩ : String) with
    | none => Except.ok (PyVal.list [])
    | some (.list headers) => KustoFormatter.haLines headers []
        ((rows.map fun r : List String => jdumpsVal (.list (r.map PyVal.str))).map
          fun l => (⟨l⟩ : String))
    | some _ => Except.ok (PyVal.list [])) = _
  rw [jloads_row cols hpc hcols]
  show KustoFormatter.haLines (cols.map PyVal.str) []
      ((rows.map fun r => jdumpsVal (.list (r.map PyVal.str))).map
        fun l => (⟨l⟩ : String)) = _
  rw [List.map_map]
  rw [show ((fun l => (⟨l⟩ : String)) ∘ fun r : List String =>
      jdumpsVal (.list (r.map PyVal.str))) =
    (fun r : List String => (⟨jdumpsVal (.list (r.map PyVal.str))⟩ : String)) from rfl]
  rw [haLines_all_wellformed (cols.map PyVal.str)
    (by intro h hh; obtain ⟨c, _, rfl⟩ := List.mem_map.1 hh; rfl) _ []
    (by
      intro l hl
      obtain ⟨r, hr, rfl⟩ := List.mem_map.1 hl
      rw [jloads_row r (hrows r hr).2 (hrne r hr)]
      rfl)]
  rw [List.reverse_nil, List.nil_append, List.filterMap_map]
  rw [filterMap_all_some _ (fun r => PyVal.dict ((cols.map PyVal.str).zip (r.map PyVal.str)))
    rows (by
      intro r hr
      show (match jloads (⟨jdumpsVal (.list (r.map PyVal.str))⟩ : String) with
        | some (PyVal.list vs) => some (PyVal.dict (haRowPure (cols.map PyVal.str) vs))
        | _ => none) = _
      rw [jloads_row r (hrows r hr).2 (hrne r hr)]
      show some (PyVal.dict (haRowPure (cols.map PyVal.str) (r.map PyVal.str))) = _
      rw [haRowPure_zip cols (r.map PyVal.str)
        (by rw [List.length_map]; exact (hrows r hr).1) hnd])]

end FabricRti

namespace FabricRti

/-- C1 counterexample: the empty-string value contains no control
character of any format and is not null, yet the TSV round trip loses
the whole row: the encoded payload is `"c\n"`, whose trailing newline
is stripped before splitting, so decoding returns the empty list. -/
theorem C1_counterexample :
    KustoFormatter.parse (some (KustoFormatter.to_tsv
      (some ⟨[⟨["c"], [[PyVal.str ""]]⟩]⟩))) = .ok (.list []) ∧
    PyVal.list [] ≠ PyVal.list [.dict [(PyVal.str "c", PyVal.str "")]] := by
  constructor
  · rfl
  · intro h
    injection h with h'
    exact List.noConfusion h'

/-- C1 (amended): encode/decode is the identity on a single-table
result of string cells for all five wire formats, under per-format
goodness conditions: distinct nonempty column names free of
tab/newline, of characters CSV quotes on, of surrounding whitespace,
and made of plain printable ASCII; values nonempty, backslash-free,
not ending in a strippable character, free of characters CSV quotes
on, and made of plain printable ASCII.  Without the nonemptiness
condition the claim is false (see the counterexample: an empty-string
value, which contains no control characters, breaks the csv and tsv
round trips). -/
theorem C1_roundtrip (cols : List String) (rows : List (List String))
    (hcols : cols ≠ []) (hnd : cols.Nodup)
    (hname : ∀ c ∈ cols, tsvGoodName c = true ∧ csvNeedsQuote c = false ∧
      jsonSafe c = true)
    (hval : ∀ r ∈ rows, r.length = cols.length ∧
      ∀ v ∈ r, tsvGoodVal v = true ∧ csvNeedsQuote v = false ∧ jsonSafe v = true) :
    KustoFormatter.parse (some (KustoFormatter.to_json
      (some ⟨[⟨cols, rows.map fun r => r.map PyVal.str⟩]⟩))) =
      .ok (.list (rows.map fun r =>
        .dict ((cols.map PyVal.str).zip (r.map PyVal.str)))) ∧
    KustoFormatter.parse (some (KustoFormatter.to_csv
      (some ⟨[⟨cols, rows.map fun r => r.map PyVal.str⟩]⟩))) =
      .ok (.list (rows.map fun r =>
        .dict ((cols.map PyVal.str).zip (r.map PyVal.str)))) ∧
    KustoFormatter.parse (some (KustoFormatter.to_tsv
      (some ⟨[⟨cols, rows.map fun r => r.map PyVal.str⟩]⟩))) =
      .ok (.list (rows.map fun r =>
        .dict ((cols.map PyVal.str).zip (r.map PyVal.str)))) ∧
    KustoFormatter.parse (some (KustoFormatter.to_columnar
      (some ⟨[⟨cols, rows.map fun r => r.map PyVal.str⟩]⟩))) =
      .ok (.list (rows.map fun r =>
        .dict ((cols.map PyVal.str).zip (r.map PyVal.str)))) ∧
    KustoFormatter.parse (some (KustoFormatter.to_header_arrays
      (some ⟨[⟨cols, rows.map fun r => r.map PyVal.str⟩]⟩))) =
      .ok (.list (rows.map fun r =>
        .dict ((cols.map PyVal.str).zip (r.map PyVal.str)))) := by
  have hnonempty : ∀ s : String, tsvGoodVal s = true → s ≠ "" := by
    intro s hs h
    exact (tsvGoodVal_spec hs).1 (congrArg String.data h)
  have hnameNe : ∀ c ∈ cols, c ≠ "" := by
    intro c hc h
    exact (tsvGoodName_spec (hname c hc).1).1 (congrArg String.data h)
  have hsafe : ∀ s : String, jsonSafe s = true → ∀ ch ∈ s.data, jsonPlainChar ch = true := by
    intro s hs
    rw [jsonSafe, List.all_eq_true] at hs
    exact hs
  refine ⟨?_, ?_, ?_, ?_, ?_⟩
  · have hj := json_roundtrip cols (rows.map fun r => r.map PyVal.str) hnd
    rw [List.map_map] at hj
    exact hj
  · exact csv_roundtrip cols rows hcols hnd
      (fun c hc => ⟨hnameNe c hc, (hname c hc).2.1⟩)
      (fun r hr => ⟨(hval r hr).1, fun v hv =>
        ⟨hnonempty v ((hval r hr).2 v hv).1, ((hval r hr).2 v hv).2.1⟩⟩)
  · exact tsv_roundtrip cols rows hcols hnd (fun c hc => (hname c hc).1)
      (fun r hr => ⟨(hval r hr).1, fun v hv => ((hval r hr).2 v hv).1⟩)
  · have hc := columnar_roundtrip cols (rows.map fun r => r.map PyVal.str) hcols hnd
      (by
        intro r hr
        obtain ⟨r0, hr0, rfl⟩ := List.mem_map.1 hr
        rw [List.length_map]
        exact (hval r0 hr0).1)
    rw [List.map_map] at hc
    exact hc
  · exact header_arrays_roundtrip cols rows hcols hnd
      (fun c hc => hsafe c (hname c hc).2.2)
      (fun r hr => ⟨(hval r hr).1, fun v hv => hsafe v ((hval r hr).2 v hv).2.2⟩)

/-- Witness for the amended C1 theorem at a two-column, two-row
table. -/
theorem C1_roundtrip_witness :
    (["a", "b"] : List String) ≠ [] ∧ (["a", "b"] : List String).Nodup ∧
    (∀ c ∈ (["a", "b"] : List String), tsvGoodName c = true ∧
      csvNeedsQuote c = false ∧ jsonSafe c = true) ∧
    (∀ r ∈ ([["x", "y"], ["z", "w"]] : List (List String)),
      r.length = (["a", "b"] : List String).length ∧
      ∀ v ∈ r, tsvGoodVal v = true ∧ csvNeedsQuote v = false ∧ jsonSafe v = true) ∧
    (KustoFormatter.parse (some (KustoFormatter.to_json
      (some ⟨[⟨["a", "b"], [["x", "y"], ["z", "w"]].map fun r => r.map PyVal.str⟩]⟩))) =
      .ok (.list ([["x", "y"], ["z", "w"]].map fun r =>
        .dict (((["a", "b"] : List String).map PyVal.str).zip (r.map PyVal.str)))) ∧
    KustoFormatter.parse (some (KustoFormatter.to_csv
      (some ⟨[⟨["a", "b"], [["x", "y"], ["z", "w"]].map fun r => r.map PyVal.str⟩]⟩))) =
      .ok (.list ([["x", "y"], ["z", "w"]].map fun r =>
        .dict (((["a", "b"] : List String).map PyVal.str).zip (r.map PyVal.str)))) ∧
    KustoFormatter.parse (some (KustoFormatter.to_tsv
      (some ⟨[⟨["a", "b"], [["x", "y"], ["z", "w"]].map fun r => r.map PyVal.str⟩]⟩))) =
      .ok (.list ([["x", "y"], ["z", "w"]].map fun r =>
        .dict (((["a", "b"] : List String).map PyVal.str).zip (r.map PyVal.str)))) ∧
    KustoFormatter.parse (some (KustoFormatter.to_columnar
      (some ⟨[⟨["a", "b"], [["x", "y"], ["z", "w"]].map fun r => r.map PyVal.str⟩]⟩))) =
      .ok (.list ([["x", "y"], ["z", "w"]].map fun r =>
        .dict (((["a", "b"] : List String).map PyVal.str).zip (r.map PyVal.str)))) ∧
    KustoFormatter.parse (some (KustoFormatter.to_header_arrays
      (some ⟨[⟨["a", "b"], [["x", "y"], ["z", "w"]].map fun r => r.map PyVal.str⟩]⟩))) =
      .ok (.list ([["x", "y"], ["z", "w"]].map fun r =>
        .dict (((["a", "b"] : List String).map PyVal.str).zip (r.map PyVal.str))))) :=
  ⟨by decide, by decide, by decide, by decide,
    C1_roundtrip ["a", "b"] [["x", "y"], ["z", "w"]]
      (by decide) (by decide) (by decide) (by decide)⟩

end FabricRti
